import Mathlib

/-!
Verification model of the scrapium-server inventory probing engine
(`src/scraper.py`, `src/app.py`).

The scraper drives a browser session.  We embed it shallowly: the page's
behaviour is an explicit environment value, and every externally visible
effect of the code (navigation, opening a tab, a successful reservation
submission, recording a handle in the ledger, a generator `yield`, the
compensation flow, closing a tab, quitting the driver) becomes an entry in
an action trace.  Browsing contexts are identified by the control context
plus numbered tabs (`window.open` in creation order).  Cooperative
cancellation (`stop_event.is_set()`) is modelled by a Boolean schedule
indexed by the number of checks performed so far; each reservation cycle
and each yielded update is stamped with the index of the stop check that
guarded it.
-/

namespace Scrapium

/-- A browsing context: the control tab or a numbered extra tab. -/
inductive Ctx where
  | control : Ctx
  | tab : Nat → Ctx
deriving DecidableEq, Repr

/-- One observable step of the scraper (`src/scraper.py`). -/
inductive Act where
  | navControl : Act
  | openCtx : Nat → Act
  | navTab : Nat → Act
  | reserve : Nat → Ctx → Nat → Nat → Act
  | record : Nat → Nat → Act
  | yieldUpd : Nat → String → Nat → Nat → Act
  | yieldComplete : Act
  | sweepCancel : Nat → Act
  | closeCtx : Nat → Act
  | quitDriver : Act
deriving DecidableEq, Repr

/-- `TicketTier` dataclass from `scraper.py`. -/
structure TicketTier where
  id_ : Option String
  name : String
  stock : Nat
deriving DecidableEq, Repr

/-- What one reload of the page shows for a tier's quantity control:
the wait for the select times out (`absent`), the select is present with
the given option values (`options`), or the select is present but the
reservation tab's own waits fail mid-cycle (`fail`). -/
inductive CycleView where
  | absent : CycleView
  | options : List String → CycleView
  | fail : List String → CycleView
deriving DecidableEq, Repr

/-- A discovered tier together with the page behaviour it will exhibit,
one `CycleView` per probe cycle (after the list the control is absent). -/
structure TierSpec where
  tier : TicketTier
  views : List CycleView
deriving DecidableEq, Repr

/-- Python `str.isdigit` on an option value (all characters digits,
nonempty). -/
def isDigits (s : String) : Bool :=
  !s.data.isEmpty && s.data.all (fun c => c.isDigit)

/-- Python `int()` on a digit string. -/
def digitsToNat (s : String) : Nat :=
  s.data.foldl (fun n c => n * 10 + (c.toNat - 48)) 0

/-- The option filter shared by `run_stream` and `_count_stock_for_tier`:
keep values that are digit strings with a positive integer value. -/
def parseOpts (vals : List String) : List Nat :=
  vals.filterMap fun s =>
    if isDigits s && decide (0 < digitsToNat s) then some (digitsToNat s) else none

/-- `qty = max(options)` (the options are nonempty when this is used). -/
def chooseQty (opts : List Nat) : Nat := opts.foldl max 0

/-- The quantity successfully reserved at each probe cycle, as determined
by the page behaviour: one entry per cycle that reaches a successful
submission, cut off at the first cycle whose control is absent, whose
filtered options are empty, or whose reservation tab fails. -/
def cycleQtys : List CycleView → List Nat
  | [] => []
  | CycleView.absent :: _ => []
  | CycleView.options vals :: rest =>
    if (parseOpts vals).isEmpty then [] else chooseQty (parseOpts vals) :: cycleQtys rest
  | CycleView.fail _ :: _ => []

/-- Running totals starting from `s`: `sumsFrom s [a, b] = [s+a, s+a+b]`. -/
def sumsFrom (s : Nat) : List Nat → List Nat
  | [] => []
  | q :: qs => (s + q) :: sumsFrom (s + q) qs

/-- Result of the per-tier `while True` loop of `run_stream`. -/
structure LoopOut where
  acts : List Act
  stock : Nat
  nextT : Nat
  lastT : Nat
  ctx : Nat
  err : Bool
deriving DecidableEq, Repr

/-- The inner `while True` loop of `EntradiumScraper.run_stream`
(scraper.py lines 120-164) for the tier at position `idx`.  `s` is the
running `stock`, `t` the index of the next stop check, `c` the number of
the next fresh tab.  Each iteration:  check `stop_event`; reload the page
in the control context; wait for the select (`absent` breaks); filter the
options (`[]` breaks); pick `qty = max`; open a fresh tab, navigate it,
select `qty` and submit (a `fail` view raises out of the loop instead);
then `stock += qty`, append the tab to the ledgers, and yield
`(name, stock)`. -/
def streamTierLoop (stop : Nat → Bool) (idx : Nat) (name : String) :
    List CycleView → Nat → Nat → Nat → LoopOut
  | [], s, t, c =>
    if stop t then ⟨[], s, t + 1, t, c, false⟩
    else ⟨[Act.navControl], s, t + 1, t, c, false⟩
  | v :: rest, s, t, c =>
    if stop t then ⟨[], s, t + 1, t, c, false⟩
    else
      match v with
      | CycleView.absent => ⟨[Act.navControl], s, t + 1, t, c, false⟩
      | CycleView.options vals =>
        if (parseOpts vals).isEmpty then ⟨[Act.navControl], s, t + 1, t, c, false⟩
        else
          let q := chooseQty (parseOpts vals)
          let r := streamTierLoop stop idx name rest (s + q) (t + 1) (c + 1)
          ⟨Act.navControl :: Act.openCtx c :: Act.navTab c ::
             Act.reserve idx (Ctx.tab c) q t :: Act.record idx c ::
             Act.yieldUpd idx name (s + q) t :: r.acts,
           r.stock, r.nextT, r.lastT, r.ctx, r.err⟩
      | CycleView.fail vals =>
        if (parseOpts vals).isEmpty then ⟨[Act.navControl], s, t + 1, t, c, false⟩
        else ⟨[Act.navControl, Act.openCtx c, Act.navTab c], s, t + 1, t, c + 1, true⟩

/-- Result of the `for tier in tiers` loop of `run_stream`. -/
structure TiersOut where
  acts : List Act
  nextT : Nat
  ctx : Nat
  err : Bool
deriving DecidableEq, Repr

/-- The `for tier in tiers` loop of `run_stream` (scraper.py lines
107-167), tiers numbered from `i`.  Per tier: check `stop_event` (a set
flag breaks the loop); a tier without a quantity control yields
`(name, 0)` and continues; otherwise run the probe loop and afterwards
yield the tier's final `(name, stock)` (skipped when the loop raised). -/
def streamTiers (stop : Nat → Bool) :
    List TierSpec → Nat → Nat → Nat → TiersOut
  | [], t, c, _ => ⟨[], t, c, false⟩
  | ts :: rest, t, c, i =>
    if stop t then ⟨[], t + 1, c, false⟩
    else
      match ts.tier.id_ with
      | none =>
        let r := streamTiers stop rest (t + 1) c (i + 1)
        ⟨Act.yieldUpd i ts.tier.name 0 t :: r.acts, r.nextT, r.ctx, r.err⟩
      | some _ =>
        let l := streamTierLoop stop i ts.tier.name ts.views 0 (t + 1) c
        if l.err then ⟨l.acts, l.nextT, l.ctx, true⟩
        else
          let r := streamTiers stop rest l.nextT l.ctx (i + 1)
          ⟨l.acts ++ Act.yieldUpd i ts.tier.name l.stock l.lastT :: r.acts,
           r.nextT, r.ctx, r.err⟩

/-- The tab numbers appended to `all_reserve_handles`. -/
def recordCtxs (acts : List Act) : List Nat :=
  acts.filterMap fun a => match a with
    | Act.record _ c => some c
    | _ => none

/-- The compensation sweep of `run_stream`'s `finally` block (scraper.py
lines 172-212): for every ledgered handle, switch to it, run the
cancel-purchase flow, and close the tab. -/
def sweepActs (handles : List Nat) : List Act :=
  handles.flatMap fun c => [Act.sweepCancel c, Act.closeCtx c]

/-- Outcome of a whole `run_stream` session. -/
structure RunResult where
  acts : List Act
  err : Bool
deriving DecidableEq, Repr

/-- `EntradiumScraper.run_stream` (scraper.py lines 92-219): initial
navigation of the control context, tier discovery, the per-tier loops,
the final `yield "__complete__"` (reached unless the body raised), and
the `finally` block: compensation sweep over `all_reserve_handles`, then
`driver.quit()`. -/
def runStream (stop : Nat → Bool) (tiers : List TierSpec) : RunResult :=
  let o := streamTiers stop tiers 0 0 0
  let body := o.acts ++ (if o.err then [] else [Act.yieldComplete])
  ⟨Act.navControl :: Act.navControl ::
     (body ++ sweepActs (recordCtxs body) ++ [Act.quitDriver]), o.err⟩

/-- Result of `_count_stock_for_tier`. -/
structure BatchOut where
  acts : List Act
  total : Nat
  err : Bool
deriving DecidableEq, Repr

/-- `EntradiumScraper._count_stock_for_tier` (scraper.py lines 66-90):
the same reload / wait-for-select / filter / `qty = max` / submit loop,
but run entirely in the control context, with no stop checks, no extra
tabs and no ledger.  A `fail` view (submit affordance never clickable)
raises `TimeoutException` out of the loop. -/
def countStockForTier (idx : Nat) : List CycleView → Nat → BatchOut
  | [], total => ⟨[Act.navControl], total, false⟩
  | v :: rest, total =>
    match v with
    | CycleView.absent => ⟨[Act.navControl], total, false⟩
    | CycleView.options vals =>
      if (parseOpts vals).isEmpty then ⟨[Act.navControl], total, false⟩
      else
        let q := chooseQty (parseOpts vals)
        let r := countStockForTier idx rest (total + q)
        ⟨Act.navControl :: Act.reserve idx Ctx.control q 0 :: r.acts, r.total, r.err⟩
    | CycleView.fail vals =>
      if (parseOpts vals).isEmpty then ⟨[Act.navControl], total, false⟩
      else ⟨[Act.navControl], total, true⟩

/-- Result of `EntradiumScraper.run`. -/
structure BatchRun where
  acts : List Act
  tickets : List (String × Nat)
  err : Bool
deriving DecidableEq, Repr

/-- The `for tier in self._discover_tiers()` loop of `run` (scraper.py
lines 58-62): a tier without a control contributes `name ↦ 0`; otherwise
`_count_stock_for_tier` runs (an exception there propagates out of
`run`). -/
def runBatchTiers : List TierSpec → Nat → BatchRun
  | [], _ => ⟨[], [], false⟩
  | ts :: rest, i =>
    match ts.tier.id_ with
    | none =>
      let r := runBatchTiers rest (i + 1)
      ⟨r.acts, (ts.tier.name, 0) :: r.tickets, r.err⟩
    | some _ =>
      let c := countStockForTier i ts.views 0
      if c.err then ⟨c.acts, [], true⟩
      else
        let r := runBatchTiers rest (i + 1)
        ⟨c.acts ++ r.acts, (ts.tier.name, c.total) :: r.tickets, r.err⟩

/-- `EntradiumScraper.run` (scraper.py lines 51-64): event-info and
discovery navigations, the per-tier counting loop, then `driver.quit()`.
There is no `try`/`finally`: on an exception the quit is skipped, and on
every path there is no compensation of the reservations just made. -/
def runBatch (tiers : List TierSpec) : BatchRun :=
  let r := runBatchTiers tiers 0
  if r.err then ⟨Act.navControl :: Act.navControl :: r.acts, [], true⟩
  else ⟨Act.navControl :: Act.navControl :: (r.acts ++ [Act.quitDriver]), r.tickets, false⟩

/-! ### Trace extraction helpers -/

/-- Totals of all yielded tier updates, in order. -/
def updTotalsOf (acts : List Act) : List Nat :=
  acts.filterMap fun a => match a with
    | Act.yieldUpd _ _ s _ => some s
    | _ => none

/-- Totals of the updates yielded for the tier at position `idx`. -/
def tierUpdTotals (idx : Nat) (acts : List Act) : List Nat :=
  acts.filterMap fun a => match a with
    | Act.yieldUpd i _ s _ => if i = idx then some s else none
    | _ => none

/-- Quantities of all successful reservations, in order. -/
def reserveQtysOf (acts : List Act) : List Nat :=
  acts.filterMap fun a => match a with
    | Act.reserve _ _ q _ => some q
    | _ => none

/-- Quantities reserved for the tier at position `idx`. -/
def tierReserveQtys (idx : Nat) (acts : List Act) : List Nat :=
  acts.filterMap fun a => match a with
    | Act.reserve i _ q _ => if i = idx then some q else none
    | _ => none

/-- Ledger entries recorded for the tier at position `idx`. -/
def tierRecordCtxs (idx : Nat) (acts : List Act) : List Nat :=
  acts.filterMap fun a => match a with
    | Act.record i c => if i = idx then some c else none
    | _ => none

/-- Tab numbers of all tabs opened, in order. -/
def openCtxsOf (acts : List Act) : List Nat :=
  acts.filterMap fun a => match a with
    | Act.openCtx c => some c
    | _ => none

/-- Tabs on which a close was performed, in order. -/
def closeCtxsOf (acts : List Act) : List Nat :=
  acts.filterMap fun a => match a with
    | Act.closeCtx c => some c
    | _ => none

/-- Tabs visited by the cancel-reservation flow, in order. -/
def sweepCtxsOf (acts : List Act) : List Nat :=
  acts.filterMap fun a => match a with
    | Act.sweepCancel c => some c
    | _ => none

/-- Browsing contexts in which a reservation was submitted, in order. -/
def reserveCtxsOf (acts : List Act) : List Ctx :=
  acts.filterMap fun a => match a with
    | Act.reserve _ cx _ _ => some cx
    | _ => none

/-- A `stop_event` schedule that is never set (no cancellation). -/
def falseStop : Nat → Bool := fun _ => false

/-- A monotone stop schedule: once set, it stays set. -/
def MonoStop (stop : Nat → Bool) : Prop :=
  ∀ i j : Nat, i ≤ j → stop i = true → stop j = true

/-! ### The WebSocket bridge (`src/app.py`) -/

/-- One item pulled from the `run_stream` generator by the worker:
either a `(name, stock)` pair or the `("__complete__", "")` sentinel. -/
inductive Item where
  | upd : Nat → String → Nat → Nat → Item
  | complete : Item
deriving DecidableEq, Repr

/-- The sequence of values the `run_stream` generator yields. -/
def yieldsOf (acts : List Act) : List Item :=
  acts.filterMap fun a => match a with
    | Act.yieldUpd i n s t => some (Item.upd i n s t)
    | Act.yieldComplete => some Item.complete
    | _ => none

/-- A message placed on the asyncio queue by the worker thread. -/
inductive QMsg where
  | tierQ : String → Nat → QMsg
  | completeQ : QMsg
  | errorQ : QMsg
deriving DecidableEq, Repr

/-- The `worker` closure of `websocket_scrape` (app.py lines 71-82):
pull items from `run_stream`; after each pull, if `stop_event` is set,
break without enqueueing; otherwise enqueue the pair.  When the
generator is exhausted, enqueue `__complete__` unless `stop_event` is
set; when the generator raises (modelled as a raise after its last
yield), enqueue `__error__`.  `wstop` is indexed by the number of items
pulled so far. -/
def workerLoop (wstop : Nat → Bool) (err : Bool) : List Item → Nat → List QMsg
  | [], i =>
    if err then [QMsg.errorQ]
    else if wstop i then [] else [QMsg.completeQ]
  | it :: rest, i =>
    if wstop i then []
    else
      (match it with
       | Item.upd _ n s _ => QMsg.tierQ n s
       | Item.complete => QMsg.completeQ) :: workerLoop wstop err rest (i + 1)

/-- A JSON message sent to the websocket client. -/
inductive WireMsg where
  | eventInfoW : WireMsg
  | tierW : String → Nat → WireMsg
  | completeW : WireMsg
  | errorW : WireMsg
deriving DecidableEq, Repr

/-- The consumer loop of `websocket_scrape` (app.py lines 88-106):
dequeue messages; `__error__` sends the error terminal and breaks;
`__complete__` sends the completion terminal and breaks; anything else
is forwarded as a `{tier, stock}` message. -/
def consumerSend : List QMsg → List WireMsg
  | [] => []
  | QMsg.errorQ :: _ => [WireMsg.errorW]
  | QMsg.completeQ :: _ => [WireMsg.completeW]
  | QMsg.tierQ n s :: rest => WireMsg.tierW n s :: consumerSend rest

/-- Terminal wire messages (`__complete__` / `__error__`). -/
def isTerminal : WireMsg → Bool
  | WireMsg.completeW => true
  | WireMsg.errorW => true
  | _ => false

/-- The streaming pipeline from a running `run_stream` generator to the
websocket: worker thread into the queue, consumer loop out of it. -/
def wsOutput (stop wstop : Nat → Bool) (tiers : List TierSpec) : List WireMsg :=
  let r := runStream stop tiers
  consumerSend (workerLoop wstop r.err (yieldsOf r.acts) 0)

/-- Keyword parameters accepted by `EntradiumScraper.__init__`
(scraper.py line 30): `url`, `headless`, `timeout`. -/
def initKeywordParams : List String := ["url", "headless", "timeout"]

/-- Keyword arguments of the constructor call in `websocket_scrape`
(app.py line 65): `EntradiumScraper(url, headless=True, stop_event=stop_event)`. -/
def wsCallKeywords : List String := ["headless", "stop_event"]

/-- Python keyword binding for a signature without `**kwargs`: the call
raises `TypeError` unless every keyword names a parameter. -/
def callAccepted (params kwargs : List String) : Bool :=
  kwargs.all fun k => params.contains k

/-- Methods `websocket_scrape` invokes on the scraper object after
construction (app.py lines 68 and 73). -/
def wsScraperMethodCalls : List String := ["_scrape_event_info", "run_stream"]

/-- `websocket_scrape` (app.py lines 52-117) for a valid URL: construct
the scraper (an invalid keyword raises `TypeError`, which is not caught
by any handler that sends a message, so nothing is ever sent); on
success send `{event_info}` and then run the streaming pipeline. -/
def websocketScrape (stop wstop : Nat → Bool) (tiers : List TierSpec) : List WireMsg :=
  if callAccepted initKeywordParams wsCallKeywords then
    WireMsg.eventInfoW :: wsOutput stop wstop tiers
  else []

/-- Operations `app.py` can perform on the session's `threading.Event`. -/
inductive StopOp where
  | setOp : StopOp
  | clearOp : StopOp
deriving DecidableEq, Repr

/-- Effect of one event operation on the flag. -/
def applyOp (_b : Bool) : StopOp → Bool
  | StopOp.setOp => true
  | StopOp.clearOp => false

/-- Flag value after a sequence of operations. -/
def runOps (b : Bool) (ops : List StopOp) : Bool := ops.foldl applyOp b

/-- Every operation `websocket_scrape` performs on `stop_event`
(app.py lines 105, 110, 113): only `set()`, never `clear()`. -/
def wsStopOps : List StopOp := [StopOp.setOp, StopOp.setOp, StopOp.setOp]

/-- Tab numbers of the contexts reservations were submitted in. -/
def reserveTabsOf (acts : List Act) : List Nat :=
  acts.filterMap fun a => match a with
    | Act.reserve _ (Ctx.tab m) _ _ => some m
    | _ => none

/-- No view of the list makes the reservation tab's waits fail. -/
def noFail (views : List CycleView) : Bool :=
  views.all fun v => match v with
    | CycleView.fail _ => false
    | _ => true

/-! ### Basic lemmas: options, max, running sums -/

lemma le_foldl_max (a : Nat) (l : List Nat) : a ≤ l.foldl max a := by
  induction l generalizing a with
  | nil => exact le_refl a
  | cons x xs ih => exact le_trans (le_max_left a x) (ih (max a x))

lemma mem_le_foldl_max {x : Nat} {l : List Nat} (a : Nat) (hx : x ∈ l) :
    x ≤ l.foldl max a := by
  induction l generalizing a with
  | nil => cases hx
  | cons y ys ih =>
    rcases List.mem_cons.1 hx with h | h
    · subst h
      exact le_trans (le_max_right a x) (le_foldl_max _ _)
    · exact ih _ h

lemma foldl_max_mem (a : Nat) (l : List Nat) :
    l.foldl max a = a ∨ l.foldl max a ∈ l := by
  induction l generalizing a with
  | nil => exact Or.inl rfl
  | cons x xs ih =>
    rcases ih (max a x) with h | h
    · rcases max_choice a x with hm | hm
      · exact Or.inl (by rw [List.foldl_cons, h, hm])
      · exact Or.inr (by rw [List.foldl_cons, h, hm]; exact List.mem_cons_self _ _)
    · exact Or.inr (List.mem_cons_of_mem _ h)

lemma parseOpts_mem (vals : List String) (n : Nat) :
    n ∈ parseOpts vals ↔
      ∃ s ∈ vals, isDigits s = true ∧ digitsToNat s = n ∧ 0 < n := by
  simp only [parseOpts, List.mem_filterMap]
  constructor
  · rintro ⟨s, hs, h⟩
    by_cases hc : (isDigits s && decide (0 < digitsToNat s)) = true
    · rw [if_pos hc] at h
      rw [Bool.and_eq_true] at hc
      obtain ⟨h1, h2⟩ := hc
      have hn := Option.some.inj h
      refine ⟨s, hs, h1, hn, ?_⟩
      have := of_decide_eq_true h2
      omega
    · rw [if_neg hc] at h
      cases h
  · rintro ⟨s, hs, h1, h2, h3⟩
    refine ⟨s, hs, ?_⟩
    have hc : (isDigits s && decide (0 < digitsToNat s)) = true := by
      rw [h1, Bool.true_and, decide_eq_true_eq, h2]
      exact h3
    rw [if_pos hc, h2]

lemma parseOpts_pos {vals : List String} {n : Nat} (h : n ∈ parseOpts vals) :
    0 < n := by
  obtain ⟨s, _, _, hn, hpos⟩ := (parseOpts_mem vals n).1 h
  exact hpos

lemma chooseQty_le {x : Nat} {opts : List Nat} (hx : x ∈ opts) :
    x ≤ chooseQty opts := mem_le_foldl_max 0 hx

lemma chooseQty_mem {opts : List Nat} (hpos : ∀ n ∈ opts, 0 < n)
    (hne : opts ≠ []) : chooseQty opts ∈ opts := by
  rcases foldl_max_mem 0 opts with h | h
  · cases opts with
    | nil => exact absurd rfl hne
    | cons x xs =>
      have hx : x ≤ chooseQty (x :: xs) := chooseQty_le (List.mem_cons_self x xs)
      have hp := hpos x (List.mem_cons_self x xs)
      have h0 : chooseQty (x :: xs) = 0 := h
      omega
  · exact h

lemma chooseQty_pos {vals : List String} (hne : ¬ (parseOpts vals).isEmpty = true) :
    0 < chooseQty (parseOpts vals) := by
  have hne' : parseOpts vals ≠ [] := by
    intro h
    exact hne (by rw [h]; rfl)
  exact parseOpts_pos (chooseQty_mem (fun n hn => parseOpts_pos hn) hne')

lemma cycleQtys_pos {views : List CycleView} : ∀ q ∈ cycleQtys views, 0 < q := by
  induction views with
  | nil => intro q hq; cases hq
  | cons v rest ih =>
    intro q hq
    cases v with
    | absent => cases hq
    | options vals =>
      by_cases he : (parseOpts vals).isEmpty = true
      · rw [cycleQtys, if_pos he] at hq
        cases hq
      · rw [cycleQtys, if_neg he] at hq
        rcases List.mem_cons.1 hq with h | h
        · subst h
          exact chooseQty_pos he
        · exact ih q h
    | fail vals => cases hq

lemma cycleQtys_spec {views : List CycleView} :
    ∀ (k q : Nat), (cycleQtys views)[k]? = some q →
      ∃ vals, views[k]? = some (CycleView.options vals) ∧
        q ∈ parseOpts vals ∧ ∀ x ∈ parseOpts vals, x ≤ q := by
  induction views with
  | nil => intro k q h; simp [cycleQtys] at h
  | cons v rest ih =>
    intro k q h
    cases v with
    | absent => simp [cycleQtys] at h
    | options vals =>
      by_cases he : (parseOpts vals).isEmpty = true
      · rw [cycleQtys, if_pos he] at h
        simp at h
      · rw [cycleQtys, if_neg he] at h
        cases k with
        | zero =>
          simp only [List.getElem?_cons_zero, Option.some.injEq] at h
          subst h
          refine ⟨vals, by simp, ?_, fun x hx => chooseQty_le hx⟩
          have hne' : parseOpts vals ≠ [] := by
            intro hh
            exact he (by rw [hh]; rfl)
          exact chooseQty_mem (fun n hn => parseOpts_pos hn) hne'
        | succ k' =>
          simp only [List.getElem?_cons_succ] at h ⊢
          exact ih k' q h
    | fail vals => simp [cycleQtys] at h

lemma sumsFrom_ge {s : Nat} {qs : List Nat} : ∀ x ∈ sumsFrom s qs, s ≤ x := by
  induction qs generalizing s with
  | nil => intro x hx; cases hx
  | cons q qs ih =>
    intro x hx
    rcases List.mem_cons.1 hx with h | h
    · subst h; omega
    · have := ih x h
      omega

lemma sumsFrom_concat {qs : List Nat} (h : qs ≠ []) (s : Nat) :
    ∃ l', sumsFrom s qs = l' ++ [s + qs.sum] := by
  induction qs generalizing s with
  | nil => exact absurd rfl h
  | cons q qs ih =>
    cases qs with
    | nil =>
      exact ⟨[], by simp [sumsFrom]⟩
    | cons q' qs' =>
      obtain ⟨l', hl'⟩ := ih (by simp) (s + q)
      refine ⟨(s + q) :: l', ?_⟩
      rw [sumsFrom, hl']
      simp [List.sum_cons]
      omega

lemma sumsFrom_getLast {qs : List Nat} (h : qs ≠ []) (s : Nat) :
    (sumsFrom s qs).getLast? = some (s + qs.sum) := by
  obtain ⟨l', hl'⟩ := sumsFrom_concat h s
  rw [hl', List.getLast?_concat]

lemma chain_le_sumsFrom (s : Nat) (qs : List Nat) :
    List.Chain' (· ≤ ·) (sumsFrom s qs ++ [s + qs.sum]) := by
  induction qs generalizing s with
  | nil => simp [sumsFrom]
  | cons q qs ih =>
    have h := ih (s + q)
    have hsum : s + (q :: qs).sum = (s + q) + qs.sum := by
      simp [List.sum_cons]; omega
    rw [sumsFrom, List.cons_append, hsum]
    refine (List.chain'_cons').2 ⟨?_, h⟩
    intro b hb
    have hmem : b ∈ sumsFrom (s + q) qs ++ [(s + q) + qs.sum] := by
      cases hhead : (sumsFrom (s + q) qs ++ [(s + q) + qs.sum]).head? with
      | none => rw [hhead] at hb; cases hb
      | some x =>
        rw [hhead] at hb
        cases hb
        exact List.mem_of_mem_head? hhead
    rcases List.mem_append.1 hmem with hm | hm
    · exact sumsFrom_ge b hm
    · rcases List.mem_singleton.1 hm with rfl
      omega

lemma chain_lt_sumsFrom {qs : List Nat} (hpos : ∀ q ∈ qs, 0 < q) (s : Nat) :
    List.Chain' (· < ·) (sumsFrom s qs) := by
  induction qs generalizing s with
  | nil => simp [sumsFrom]
  | cons q qs ih =>
    have h := ih (fun x hx => hpos x (List.mem_cons_of_mem _ hx)) (s + q)
    rw [sumsFrom]
    refine (List.chain'_cons').2 ⟨?_, h⟩
    intro b hb
    cases qs with
    | nil => rw [sumsFrom] at hb; cases hb
    | cons q' qs' =>
      rw [sumsFrom] at hb
      simp only [List.head?_cons, Option.mem_def, Option.some.injEq] at hb
      subst hb
      have := hpos q' (by simp)
      omega

/-! ### Per-tier probe loop lemmas -/

lemma streamTierLoop_totals (stop : Nat → Bool) (idx : Nat) (name : String) :
    ∀ (views : List CycleView) (s t c : Nat),
      updTotalsOf (streamTierLoop stop idx name views s t c).acts =
        sumsFrom s (reserveQtysOf (streamTierLoop stop idx name views s t c).acts) ∧
      (streamTierLoop stop idx name views s t c).stock =
        s + (reserveQtysOf (streamTierLoop stop idx name views s t c).acts).sum ∧
      ∃ m, reserveQtysOf (streamTierLoop stop idx name views s t c).acts =
        (cycleQtys views).take m := by
  intro views
  induction views with
  | nil =>
    intro s t c
    by_cases hst : stop t = true
    · refine ⟨?_, ?_, 0, ?_⟩ <;>
        simp [streamTierLoop, hst, updTotalsOf, reserveQtysOf, sumsFrom, cycleQtys]
    · refine ⟨?_, ?_, 0, ?_⟩ <;>
        simp [streamTierLoop, hst, updTotalsOf, reserveQtysOf, sumsFrom, cycleQtys]
  | cons v rest ih =>
    intro s t c
    by_cases hst : stop t = true
    · refine ⟨?_, ?_, 0, ?_⟩ <;>
        simp [streamTierLoop, hst, updTotalsOf, reserveQtysOf, sumsFrom]
    · cases v with
      | absent =>
        refine ⟨?_, ?_, 0, ?_⟩ <;>
          simp [streamTierLoop, hst, updTotalsOf, reserveQtysOf, sumsFrom]
      | options vals =>
        by_cases he : (parseOpts vals).isEmpty = true
        · refine ⟨?_, ?_, 0, ?_⟩ <;>
            simp [streamTierLoop, hst, he, updTotalsOf, reserveQtysOf, sumsFrom]
        · obtain ⟨ih1, ih2, m, ih3⟩ := ih (s + chooseQty (parseOpts vals)) (t + 1) (c + 1)
          simp only [updTotalsOf, reserveQtysOf] at ih1 ih2 ih3
          refine ⟨?_, ?_, m + 1, ?_⟩
          · simp [streamTierLoop, hst, he, updTotalsOf, reserveQtysOf, sumsFrom, ih1]
          · simp only [streamTierLoop, if_neg hst, if_neg he, reserveQtysOf,
              List.filterMap_cons]
            simp [ih2, List.sum_cons]
            omega
          · simp only [streamTierLoop, if_neg hst, if_neg he, reserveQtysOf,
              List.filterMap_cons]
            rw [cycleQtys, if_neg he]
            simp [List.take_succ_cons, ih3]
      | fail vals =>
        by_cases he : (parseOpts vals).isEmpty = true
        · refine ⟨?_, ?_, 0, ?_⟩ <;>
            simp [streamTierLoop, hst, he, updTotalsOf, reserveQtysOf, sumsFrom]
        · refine ⟨?_, ?_, 0, ?_⟩ <;>
            simp [streamTierLoop, hst, he, updTotalsOf, reserveQtysOf, sumsFrom]

lemma streamTierLoop_mem (stop : Nat → Bool) (idx : Nat) (name : String) :
    ∀ (views : List CycleView) (s t c : Nat),
      ∀ a ∈ (streamTierLoop stop idx name views s t c).acts,
        (∀ i n x u, a = Act.yieldUpd i n x u → i = idx ∧ n = name ∧ stop u = false) ∧
        (∀ i cx q u, a = Act.reserve i cx q u →
          i = idx ∧ stop u = false ∧ 0 < q ∧ ∃ mm, cx = Ctx.tab mm) ∧
        (∀ i cc, a = Act.record i cc → i = idx) ∧
        a ≠ Act.yieldComplete ∧ a ≠ Act.quitDriver ∧
        (∀ cc, a ≠ Act.sweepCancel cc) ∧ (∀ cc, a ≠ Act.closeCtx cc) := by
  intro views
  induction views with
  | nil =>
    intro s t c a ha
    by_cases hst : stop t = true <;> simp [streamTierLoop, hst] at ha <;> subst ha <;> simp
  | cons v rest ih =>
    intro s t c a ha
    by_cases hst : stop t = true
    · simp [streamTierLoop, hst] at ha
    · have hstf : stop t = false := Bool.eq_false_iff.mpr hst
      cases v with
      | absent =>
        simp [streamTierLoop, hst] at ha
        subst ha; simp
      | options vals =>
        by_cases he : (parseOpts vals).isEmpty = true
        · simp [streamTierLoop, hst, he] at ha
          subst ha; simp
        · have hq := chooseQty_pos he
          simp only [streamTierLoop, if_neg hst, if_neg he, List.mem_cons] at ha
          rcases ha with ha | ha | ha | ha | ha | ha | ha
          · subst ha; simp
          · subst ha; simp
          · subst ha; simp
          · subst ha
            refine ⟨by simp, ?_, by simp, by simp, by simp, by simp, by simp⟩
            intro i cx q u h
            cases h
            exact ⟨rfl, hstf, hq, ⟨c, rfl⟩⟩
          · subst ha; simp
          · subst ha
            refine ⟨?_, by simp, by simp, by simp, by simp, by simp, by simp⟩
            intro i n x u h
            cases h
            exact ⟨rfl, rfl, hstf⟩
          · exact ih _ _ _ a ha
      | fail vals =>
        by_cases he : (parseOpts vals).isEmpty = true
        · simp [streamTierLoop, hst, he] at ha
          subst ha; simp
        · simp [streamTierLoop, hst, he] at ha
          rcases ha with ha | ha | ha <;> subst ha <;> simp

lemma streamTierLoop_ctx (stop : Nat → Bool) (idx : Nat) (name : String) :
    ∀ (views : List CycleView) (s t c : Nat),
      ∃ k j,
        recordCtxs (streamTierLoop stop idx name views s t c).acts = List.range' c k ∧
        reserveTabsOf (streamTierLoop stop idx name views s t c).acts = List.range' c k ∧
        openCtxsOf (streamTierLoop stop idx name views s t c).acts = List.range' c j ∧
        (streamTierLoop stop idx name views s t c).ctx = c + j ∧ k ≤ j ∧
        ((streamTierLoop stop idx name views s t c).err = false → j = k) := by
  intro views
  induction views with
  | nil =>
    intro s t c
    by_cases hst : stop t = true <;>
      exact ⟨0, 0, by simp [streamTierLoop, hst, recordCtxs, reserveTabsOf, openCtxsOf, List.range']⟩
  | cons v rest ih =>
    intro s t c
    by_cases hst : stop t = true
    · exact ⟨0, 0, by simp [streamTierLoop, hst, recordCtxs, reserveTabsOf, openCtxsOf, List.range']⟩
    · cases v with
      | absent =>
        exact ⟨0, 0, by
          simp [streamTierLoop, hst, recordCtxs, reserveTabsOf, openCtxsOf, List.range']⟩
      | options vals =>
        by_cases he : (parseOpts vals).isEmpty = true
        · exact ⟨0, 0, by
            simp [streamTierLoop, hst, he, recordCtxs, reserveTabsOf, openCtxsOf, List.range']⟩
        · obtain ⟨k, j, ih1, ih2, ih3, ih4, ih5, ih6⟩ := ih (s + chooseQty (parseOpts vals)) (t + 1) (c + 1)
          simp only [recordCtxs, reserveTabsOf, openCtxsOf] at ih1 ih2 ih3
          refine ⟨k + 1, j + 1, ?_, ?_, ?_, ?_, by omega, ?_⟩
          · simp only [streamTierLoop, if_neg hst, if_neg he, recordCtxs, List.filterMap_cons]
            simp [ih1, List.range']
          · simp only [streamTierLoop, if_neg hst, if_neg he, reserveTabsOf, List.filterMap_cons]
            simp [ih2, List.range']
          · simp only [streamTierLoop, if_neg hst, if_neg he, openCtxsOf, List.filterMap_cons]
            simp [ih3, List.range']
          · simp only [streamTierLoop, if_neg hst, if_neg he]
            simp [ih4]
            omega
          · simp only [streamTierLoop, if_neg hst, if_neg he]
            intro herr
            have := ih6 herr
            omega
      | fail vals =>
        by_cases he : (parseOpts vals).isEmpty = true
        · exact ⟨0, 0, by
            simp [streamTierLoop, hst, he, recordCtxs, reserveTabsOf, openCtxsOf, List.range']⟩
        · refine ⟨0, 1, ?_⟩
          simp [streamTierLoop, hst, he, recordCtxs, reserveTabsOf, openCtxsOf, List.range']

lemma streamTierLoop_noFail (stop : Nat → Bool) (idx : Nat) (name : String) :
    ∀ (views : List CycleView) (s t c : Nat), noFail views = true →
      (streamTierLoop stop idx name views s t c).err = false := by
  intro views
  induction views with
  | nil =>
    intro s t c _
    by_cases hst : stop t = true <;> simp [streamTierLoop, hst]
  | cons v rest ih =>
    intro s t c hnf
    rw [noFail, List.all_cons, Bool.and_eq_true] at hnf
    obtain ⟨hv, hrest⟩ := hnf
    by_cases hst : stop t = true
    · simp [streamTierLoop, hst]
    · cases v with
      | absent => simp [streamTierLoop, hst]
      | options vals =>
        by_cases he : (parseOpts vals).isEmpty = true
        · simp [streamTierLoop, hst, he]
        · simp only [streamTierLoop, if_neg hst, if_neg he]
          exact ih _ _ _ hrest
      | fail vals => simp at hv

lemma streamTierLoop_false_qtys (idx : Nat) (name : String) :
    ∀ (views : List CycleView) (s t c : Nat),
      reserveQtysOf (streamTierLoop falseStop idx name views s t c).acts =
        cycleQtys views := by
  intro views
  induction views with
  | nil =>
    intro s t c
    simp [streamTierLoop, falseStop, reserveQtysOf, cycleQtys]
  | cons v rest ih =>
    intro s t c
    cases v with
    | absent => simp [streamTierLoop, falseStop, reserveQtysOf, cycleQtys]
    | options vals =>
      by_cases he : (parseOpts vals).isEmpty = true
      · simp [streamTierLoop, falseStop, he, reserveQtysOf, cycleQtys]
      · rw [cycleQtys, if_neg he]
        have ih' := ih (s + chooseQty (parseOpts vals)) (t + 1) (c + 1)
        simp only [reserveQtysOf] at ih' ⊢
        simp [streamTierLoop, falseStop, he, ih']
    | fail vals =>
      by_cases he : (parseOpts vals).isEmpty = true
      · simp [streamTierLoop, falseStop, he, reserveQtysOf, cycleQtys]
      · simp [streamTierLoop, falseStop, he, reserveQtysOf, cycleQtys]

lemma mem_updTotalsOf {x : Nat} {acts : List Act} :
    x ∈ updTotalsOf acts ↔ ∃ i n u, Act.yieldUpd i n x u ∈ acts := by
  simp only [updTotalsOf, List.mem_filterMap]
  constructor
  · rintro ⟨a, ha, h⟩
    cases a <;> try exact Option.noConfusion h
    case yieldUpd i n s u =>
      simp only [Option.some.injEq] at h
      exact ⟨i, n, u, by rw [← h]; exact ha⟩
  · rintro ⟨i, n, u, h⟩
    exact ⟨Act.yieldUpd i n x u, h, rfl⟩

lemma range'_append_one (s m n : Nat) :
    List.range' s m ++ List.range' (s + m) n = List.range' s (m + n) := by
  have h := List.range'_append s m n 1
  rw [Nat.one_mul, Nat.add_comm n m] at h
  exact h

/-! ### Session loop lemmas -/

lemma streamTiers_mem (stop : Nat → Bool) :
    ∀ (ts : List TierSpec) (t c i : Nat),
      ∀ a ∈ (streamTiers stop ts t c i).acts,
        (∀ i' cx q u, a = Act.reserve i' cx q u →
          i ≤ i' ∧ stop u = false ∧ 0 < q ∧ ∃ mm, cx = Ctx.tab mm) ∧
        (∀ i' n x u, a = Act.yieldUpd i' n x u → i ≤ i') ∧
        (∀ i' cc, a = Act.record i' cc → i ≤ i') ∧
        a ≠ Act.yieldComplete ∧ a ≠ Act.quitDriver ∧
        (∀ cc, a ≠ Act.sweepCancel cc) ∧ (∀ cc, a ≠ Act.closeCtx cc) := by
  intro ts
  induction ts with
  | nil => intro t c i a ha; simp [streamTiers] at ha
  | cons hd rest ih =>
    intro t c i a ha
    by_cases hst : stop t = true
    · simp [streamTiers, hst] at ha
    · cases hid : hd.tier.id_ with
      | none =>
        simp only [streamTiers, if_neg hst, hid, List.mem_cons] at ha
        rcases ha with ha | ha
        · subst ha
          refine ⟨by simp, ?_, by simp, by simp, by simp, by simp, by simp⟩
          intro i' n x u h
          cases h
          exact le_refl i
        · have := ih (t + 1) c (i + 1) a ha
          exact ⟨fun i' cx q u h => ⟨by have := (this.1 i' cx q u h).1; omega,
                   (this.1 i' cx q u h).2.1, (this.1 i' cx q u h).2.2.1, (this.1 i' cx q u h).2.2.2⟩,
                 fun i' n x u h => by have := this.2.1 i' n x u h; omega,
                 fun i' cc h => by have := this.2.2.1 i' cc h; omega,
                 this.2.2.2.1, this.2.2.2.2.1, this.2.2.2.2.2.1, this.2.2.2.2.2.2⟩
      | some sid =>
        simp only [streamTiers, if_neg hst, hid] at ha
        by_cases herr : (streamTierLoop stop i hd.tier.name hd.views 0 (t + 1) c).err = true
        · rw [if_pos herr] at ha
          have hm := streamTierLoop_mem stop i hd.tier.name hd.views 0 (t + 1) c a ha
          exact ⟨fun i' cx q u h => ⟨le_of_eq ((hm.2.1 i' cx q u h).1).symm,
                   (hm.2.1 i' cx q u h).2.1, (hm.2.1 i' cx q u h).2.2.1, (hm.2.1 i' cx q u h).2.2.2⟩,
                 fun i' n x u h => le_of_eq ((hm.1 i' n x u h).1).symm,
                 fun i' cc h => le_of_eq ((hm.2.2.1 i' cc h)).symm,
                 hm.2.2.2.1, hm.2.2.2.2.1, hm.2.2.2.2.2.1, hm.2.2.2.2.2.2⟩
        · rw [if_neg herr] at ha
          rcases List.mem_append.1 ha with ha | ha
          · have hm := streamTierLoop_mem stop i hd.tier.name hd.views 0 (t + 1) c a ha
            exact ⟨fun i' cx q u h => ⟨le_of_eq ((hm.2.1 i' cx q u h).1).symm,
                     (hm.2.1 i' cx q u h).2.1, (hm.2.1 i' cx q u h).2.2.1, (hm.2.1 i' cx q u h).2.2.2⟩,
                   fun i' n x u h => le_of_eq ((hm.1 i' n x u h).1).symm,
                   fun i' cc h => le_of_eq ((hm.2.2.1 i' cc h)).symm,
                   hm.2.2.2.1, hm.2.2.2.2.1, hm.2.2.2.2.2.1, hm.2.2.2.2.2.2⟩
          · rcases List.mem_cons.1 ha with ha | ha
            · subst ha
              refine ⟨by simp, ?_, by simp, by simp, by simp, by simp, by simp⟩
              intro i' n x u h
              cases h
              exact le_refl i
            · have := ih _ _ (i + 1) a ha
              exact ⟨fun i' cx q u h => ⟨by have := (this.1 i' cx q u h).1; omega,
                       (this.1 i' cx q u h).2.1, (this.1 i' cx q u h).2.2.1, (this.1 i' cx q u h).2.2.2⟩,
                     fun i' n x u h => by have := this.2.1 i' n x u h; omega,
                     fun i' cc h => by have := this.2.2.1 i' cc h; omega,
                     this.2.2.2.1, this.2.2.2.2.1, this.2.2.2.2.2.1, this.2.2.2.2.2.2⟩

lemma streamTiers_ctx (stop : Nat → Bool) :
    ∀ (ts : List TierSpec) (t c i : Nat),
      ∃ K J,
        recordCtxs (streamTiers stop ts t c i).acts = List.range' c K ∧
        reserveTabsOf (streamTiers stop ts t c i).acts = List.range' c K ∧
        openCtxsOf (streamTiers stop ts t c i).acts = List.range' c J ∧
        K ≤ J ∧ (streamTiers stop ts t c i).ctx = c + J := by
  intro ts
  induction ts with
  | nil =>
    intro t c i
    exact ⟨0, 0, by simp [streamTiers, recordCtxs, reserveTabsOf, openCtxsOf]⟩
  | cons hd rest ih =>
    intro t c i
    by_cases hst : stop t = true
    · exact ⟨0, 0, by simp [streamTiers, hst, recordCtxs, reserveTabsOf, openCtxsOf]⟩
    · cases hid : hd.tier.id_ with
      | none =>
        obtain ⟨K, J, h1, h2, h3, h4, h5⟩ := ih (t + 1) c (i + 1)
        simp only [recordCtxs, reserveTabsOf, openCtxsOf] at h1 h2 h3
        refine ⟨K, J, ?_, ?_, ?_, h4, ?_⟩
        · simp only [streamTiers, if_neg hst, hid, recordCtxs, List.filterMap_cons]
          exact h1
        · simp only [streamTiers, if_neg hst, hid, reserveTabsOf, List.filterMap_cons]
          exact h2
        · simp only [streamTiers, if_neg hst, hid, openCtxsOf, List.filterMap_cons]
          exact h3
        · simp only [streamTiers, if_neg hst, hid]
          exact h5
      | some sid =>
        obtain ⟨k, j, l1, l2, l3, l4, l5, l6⟩ :=
          streamTierLoop_ctx stop i hd.tier.name hd.views 0 (t + 1) c
        by_cases herr : (streamTierLoop stop i hd.tier.name hd.views 0 (t + 1) c).err = true
        · refine ⟨k, j, ?_, ?_, ?_, l5, ?_⟩
          · simp only [streamTiers, if_neg hst, hid, if_pos herr]
            exact l1
          · simp only [streamTiers, if_neg hst, hid, if_pos herr]
            exact l2
          · simp only [streamTiers, if_neg hst, hid, if_pos herr]
            exact l3
          · simp only [streamTiers, if_neg hst, hid, if_pos herr]
            exact l4
        · have hj : j = k := l6 (Bool.eq_false_iff.mpr herr)
          obtain ⟨K, J, r1, r2, r3, r4, r5⟩ :=
            ih (streamTierLoop stop i hd.tier.name hd.views 0 (t + 1) c).nextT
              (streamTierLoop stop i hd.tier.name hd.views 0 (t + 1) c).ctx (i + 1)
          have hctx : (streamTierLoop stop i hd.tier.name hd.views 0 (t + 1) c).ctx = c + k := by
            rw [l4, hj]
          rw [hctx] at r1 r2 r3 r5
          simp only [recordCtxs, reserveTabsOf, openCtxsOf] at l1 l2 l3 r1 r2 r3
          refine ⟨k + K, k + J, ?_, ?_, ?_, by omega, ?_⟩
          · simp only [streamTiers, if_neg hst, hid, if_neg herr, recordCtxs,
              List.filterMap_append, List.filterMap_cons]
            rw [hctx, l1, r1]
            exact range'_append_one c k K
          · simp only [streamTiers, if_neg hst, hid, if_neg herr, reserveTabsOf,
              List.filterMap_append, List.filterMap_cons]
            rw [hctx, l2, r2]
            exact range'_append_one c k K
          · simp only [streamTiers, if_neg hst, hid, if_neg herr, openCtxsOf,
              List.filterMap_append, List.filterMap_cons]
            rw [hctx, l3, hj, r3]
            exact range'_append_one c k J
          · simp only [streamTiers, if_neg hst, hid, if_neg herr]
            rw [hctx, r5]
            omega

lemma streamTiers_upd_post (stop : Nat → Bool) :
    ∀ (ts : List TierSpec) (t c i : Nat) (i' : Nat) (n : String) (x u : Nat),
      Act.yieldUpd i' n x u ∈ (streamTiers stop ts t c i).acts →
      stop u = true →
      x = 0 ∨ ∃ n' u', Act.yieldUpd i' n' x u' ∈ (streamTiers stop ts t c i).acts ∧
        stop u' = false := by
  intro ts
  induction ts with
  | nil =>
    intro t c i i' n x u hmem _
    simp [streamTiers] at hmem
  | cons hd rest ih =>
    intro t c i i' n x u hmem hu
    by_cases hst : stop t = true
    · simp [streamTiers, hst] at hmem
    · cases hid : hd.tier.id_ with
      | none =>
        rw [streamTiers, if_neg hst] at hmem ⊢
        rw [hid] at hmem ⊢
        rcases List.mem_cons.1 hmem with h | h
        · cases h
          exact Or.inl rfl
        · rcases ih (t + 1) c (i + 1) i' n x u h hu with h0 | ⟨n', u', hm', hs'⟩
          · exact Or.inl h0
          · exact Or.inr ⟨n', u', List.mem_cons_of_mem _ hm', hs'⟩
      | some sid =>
        rw [streamTiers, if_neg hst] at hmem ⊢
        rw [hid] at hmem ⊢
        by_cases herr : (streamTierLoop stop i hd.tier.name hd.views 0 (t + 1) c).err = true
        · rw [if_pos herr] at hmem ⊢
          have hm := streamTierLoop_mem stop i hd.tier.name hd.views 0 (t + 1) c _ hmem
          have := (hm.1 i' n x u rfl).2.2
          rw [this] at hu
          cases hu
        · rw [if_neg herr] at hmem ⊢
          rcases List.mem_append.1 hmem with h | h
          · have hm := streamTierLoop_mem stop i hd.tier.name hd.views 0 (t + 1) c _ h
            have := (hm.1 i' n x u rfl).2.2
            rw [this] at hu
            cases hu
          · rcases List.mem_cons.1 h with h | h
            · -- the trailing per-tier yield: the total repeats an earlier
              -- in-loop update, or the tier reserved nothing and it is 0
              obtain ⟨hT1, hT2, m, hT3⟩ :=
                streamTierLoop_totals stop i hd.tier.name hd.views 0 (t + 1) c
              cases h
              cases hqs : reserveQtysOf
                  (streamTierLoop stop i hd.tier.name hd.views 0 (t + 1) c).acts with
              | nil =>
                rw [hqs] at hT2
                simp at hT2
                exact Or.inl hT2
              | cons q0 qs0 =>
                have hqne : reserveQtysOf
                    (streamTierLoop stop i hd.tier.name hd.views 0 (t + 1) c).acts ≠ [] := by
                  rw [hqs]; simp
                have hmemtot : (streamTierLoop stop i hd.tier.name hd.views 0 (t + 1) c).stock ∈
                    updTotalsOf (streamTierLoop stop i hd.tier.name hd.views 0 (t + 1) c).acts := by
                  rw [hT1]
                  obtain ⟨l', hl'⟩ := sumsFrom_concat hqne 0
                  rw [hl', hT2]
                  simp
                obtain ⟨i2, n2, u2, hm2⟩ := mem_updTotalsOf.1 hmemtot
                have hat := streamTierLoop_mem stop i hd.tier.name hd.views 0 (t + 1) c _ hm2
                obtain ⟨hi2, _hn2, hs2⟩ := hat.1 i2 n2 _ u2 rfl
                subst hi2
                exact Or.inr ⟨n2, u2, List.mem_append_left _ hm2, hs2⟩
            · rcases ih _ _ (i + 1) i' n x u h hu with h0 | ⟨n', u', hm', hs'⟩
              · exact Or.inl h0
              · exact Or.inr ⟨n', u',
                  List.mem_append_right _ (List.mem_cons_of_mem _ hm'), hs'⟩

/-! ### Per-tier extraction helpers -/

lemma tierUpdTotals_all_eq {i : Nat} :
    ∀ {acts : List Act},
      (∀ i' n x u, Act.yieldUpd i' n x u ∈ acts → i' = i) →
      tierUpdTotals i acts = updTotalsOf acts := by
  intro acts
  induction acts with
  | nil => intro _; rfl
  | cons a l ih =>
    intro h
    have hl : ∀ i' n x u, Act.yieldUpd i' n x u ∈ l → i' = i :=
      fun i' n x u hm => h i' n x u (List.mem_cons_of_mem _ hm)
    cases a with
    | yieldUpd i2 n2 s2 u2 =>
      have hi : i2 = i := h i2 n2 s2 u2 (List.mem_cons_self _ _)
      subst hi
      simp only [tierUpdTotals, updTotalsOf] at ih
      simp only [tierUpdTotals, updTotalsOf, List.filterMap_cons]
      simp [ih hl]
    | navControl =>
      simp only [tierUpdTotals, updTotalsOf, List.filterMap_cons]
      simp only [tierUpdTotals, updTotalsOf] at ih
      exact ih hl
    | openCtx c =>
      simp only [tierUpdTotals, updTotalsOf, List.filterMap_cons]
      simp only [tierUpdTotals, updTotalsOf] at ih
      exact ih hl
    | navTab c =>
      simp only [tierUpdTotals, updTotalsOf, List.filterMap_cons]
      simp only [tierUpdTotals, updTotalsOf] at ih
      exact ih hl
    | reserve i2 cx q u =>
      simp only [tierUpdTotals, updTotalsOf, List.filterMap_cons]
      simp only [tierUpdTotals, updTotalsOf] at ih
      exact ih hl
    | record i2 c =>
      simp only [tierUpdTotals, updTotalsOf, List.filterMap_cons]
      simp only [tierUpdTotals, updTotalsOf] at ih
      exact ih hl
    | yieldComplete =>
      simp only [tierUpdTotals, updTotalsOf, List.filterMap_cons]
      simp only [tierUpdTotals, updTotalsOf] at ih
      exact ih hl
    | sweepCancel c =>
      simp only [tierUpdTotals, updTotalsOf, List.filterMap_cons]
      simp only [tierUpdTotals, updTotalsOf] at ih
      exact ih hl
    | closeCtx c =>
      simp only [tierUpdTotals, updTotalsOf, List.filterMap_cons]
      simp only [tierUpdTotals, updTotalsOf] at ih
      exact ih hl
    | quitDriver =>
      simp only [tierUpdTotals, updTotalsOf, List.filterMap_cons]
      simp only [tierUpdTotals, updTotalsOf] at ih
      exact ih hl

lemma tierUpdTotals_eq_nil {j : Nat} :
    ∀ {acts : List Act},
      (∀ i' n x u, Act.yieldUpd i' n x u ∈ acts → i' ≠ j) →
      tierUpdTotals j acts = [] := by
  intro acts
  induction acts with
  | nil => intro _; rfl
  | cons a l ih =>
    intro h
    have hl : ∀ i' n x u, Act.yieldUpd i' n x u ∈ l → i' ≠ j :=
      fun i' n x u hm => h i' n x u (List.mem_cons_of_mem _ hm)
    cases a with
    | yieldUpd i2 n2 s2 u2 =>
      have hi : i2 ≠ j := h i2 n2 s2 u2 (List.mem_cons_self _ _)
      simp only [tierUpdTotals, List.filterMap_cons, if_neg hi]
      simp only [tierUpdTotals] at ih
      exact ih hl
    | navControl => exact ih hl
    | openCtx c => exact ih hl
    | navTab c => exact ih hl
    | reserve i2 cx q u => exact ih hl
    | record i2 c => exact ih hl
    | yieldComplete => exact ih hl
    | sweepCancel c => exact ih hl
    | closeCtx c => exact ih hl
    | quitDriver => exact ih hl

lemma tierReserveQtys_all_eq {i : Nat} :
    ∀ {acts : List Act},
      (∀ i' cx q u, Act.reserve i' cx q u ∈ acts → i' = i) →
      tierReserveQtys i acts = reserveQtysOf acts := by
  intro acts
  induction acts with
  | nil => intro _; rfl
  | cons a l ih =>
    intro h
    have hl : ∀ i' cx q u, Act.reserve i' cx q u ∈ l → i' = i :=
      fun i' cx q u hm => h i' cx q u (List.mem_cons_of_mem _ hm)
    cases a with
    | reserve i2 cx q u =>
      have hi : i2 = i := h i2 cx q u (List.mem_cons_self _ _)
      subst hi
      simp only [tierReserveQtys, reserveQtysOf] at ih
      simp only [tierReserveQtys, reserveQtysOf, List.filterMap_cons]
      simp [ih hl]
    | navControl => exact ih hl
    | openCtx c => exact ih hl
    | navTab c => exact ih hl
    | yieldUpd i2 n2 s2 u2 => exact ih hl
    | record i2 c => exact ih hl
    | yieldComplete => exact ih hl
    | sweepCancel c => exact ih hl
    | closeCtx c => exact ih hl
    | quitDriver => exact ih hl

lemma tierReserveQtys_eq_nil {j : Nat} :
    ∀ {acts : List Act},
      (∀ i' cx q u, Act.reserve i' cx q u ∈ acts → i' ≠ j) →
      tierReserveQtys j acts = [] := by
  intro acts
  induction acts with
  | nil => intro _; rfl
  | cons a l ih =>
    intro h
    have hl : ∀ i' cx q u, Act.reserve i' cx q u ∈ l → i' ≠ j :=
      fun i' cx q u hm => h i' cx q u (List.mem_cons_of_mem _ hm)
    cases a with
    | reserve i2 cx q u =>
      have hi : i2 ≠ j := h i2 cx q u (List.mem_cons_self _ _)
      simp only [tierReserveQtys, List.filterMap_cons, if_neg hi]
      simp only [tierReserveQtys] at ih
      exact ih hl
    | navControl => exact ih hl
    | openCtx c => exact ih hl
    | navTab c => exact ih hl
    | yieldUpd i2 n2 s2 u2 => exact ih hl
    | record i2 c => exact ih hl
    | yieldComplete => exact ih hl
    | sweepCancel c => exact ih hl
    | closeCtx c => exact ih hl
    | quitDriver => exact ih hl

lemma tierRecordCtxs_all_eq {i : Nat} :
    ∀ {acts : List Act},
      (∀ i' cc, Act.record i' cc ∈ acts → i' = i) →
      tierRecordCtxs i acts = recordCtxs acts := by
  intro acts
  induction acts with
  | nil => intro _; rfl
  | cons a l ih =>
    intro h
    have hl : ∀ i' cc, Act.record i' cc ∈ l → i' = i :=
      fun i' cc hm => h i' cc (List.mem_cons_of_mem _ hm)
    cases a with
    | record i2 c =>
      have hi : i2 = i := h i2 c (List.mem_cons_self _ _)
      subst hi
      simp only [tierRecordCtxs, recordCtxs] at ih
      simp only [tierRecordCtxs, recordCtxs, List.filterMap_cons]
      simp [ih hl]
    | navControl => exact ih hl
    | openCtx c => exact ih hl
    | navTab c => exact ih hl
    | yieldUpd i2 n2 s2 u2 => exact ih hl
    | reserve i2 cx q u => exact ih hl
    | yieldComplete => exact ih hl
    | sweepCancel c => exact ih hl
    | closeCtx c => exact ih hl
    | quitDriver => exact ih hl

lemma tierRecordCtxs_eq_nil {j : Nat} :
    ∀ {acts : List Act},
      (∀ i' cc, Act.record i' cc ∈ acts → i' ≠ j) →
      tierRecordCtxs j acts = [] := by
  intro acts
  induction acts with
  | nil => intro _; rfl
  | cons a l ih =>
    intro h
    have hl : ∀ i' cc, Act.record i' cc ∈ l → i' ≠ j :=
      fun i' cc hm => h i' cc (List.mem_cons_of_mem _ hm)
    cases a with
    | record i2 c =>
      have hi : i2 ≠ j := h i2 c (List.mem_cons_self _ _)
      simp only [tierRecordCtxs, List.filterMap_cons, if_neg hi]
      simp only [tierRecordCtxs] at ih
      exact ih hl
    | navControl => exact ih hl
    | openCtx c => exact ih hl
    | navTab c => exact ih hl
    | yieldUpd i2 n2 s2 u2 => exact ih hl
    | reserve i2 cx q u => exact ih hl
    | yieldComplete => exact ih hl
    | sweepCancel c => exact ih hl
    | closeCtx c => exact ih hl
    | quitDriver => exact ih hl

lemma streamTierLoop_record_len (stop : Nat → Bool) (idx : Nat) (name : String) :
    ∀ (views : List CycleView) (s t c : Nat),
      (recordCtxs (streamTierLoop stop idx name views s t c).acts).length =
        (reserveQtysOf (streamTierLoop stop idx name views s t c).acts).length := by
  intro views
  induction views with
  | nil =>
    intro s t c
    by_cases hst : stop t = true <;> simp [streamTierLoop, hst, recordCtxs, reserveQtysOf]
  | cons v rest ih =>
    intro s t c
    by_cases hst : stop t = true
    · simp [streamTierLoop, hst, recordCtxs, reserveQtysOf]
    · cases v with
      | absent => simp [streamTierLoop, hst, recordCtxs, reserveQtysOf]
      | options vals =>
        by_cases he : (parseOpts vals).isEmpty = true
        · simp [streamTierLoop, hst, he, recordCtxs, reserveQtysOf]
        · have ih' := ih (s + chooseQty (parseOpts vals)) (t + 1) (c + 1)
          simp only [recordCtxs, reserveQtysOf] at ih'
          simp only [streamTierLoop, if_neg hst, if_neg he, recordCtxs, reserveQtysOf,
            List.filterMap_cons]
          simp [ih']
      | fail vals =>
        by_cases he : (parseOpts vals).isEmpty = true
        · simp [streamTierLoop, hst, he, recordCtxs, reserveQtysOf]
        · simp [streamTierLoop, hst, he, recordCtxs, reserveQtysOf]

lemma streamTiers_soldout (stop : Nat → Bool) :
    ∀ (ts : List TierSpec) (t c i k : Nat) (tsk : TierSpec),
      ts[k]? = some tsk → tsk.tier.id_ = none →
      tierReserveQtys (i + k) (streamTiers stop ts t c i).acts = [] ∧
      tierRecordCtxs (i + k) (streamTiers stop ts t c i).acts = [] ∧
      (tierUpdTotals (i + k) (streamTiers stop ts t c i).acts = [] ∨
       tierUpdTotals (i + k) (streamTiers stop ts t c i).acts = [0]) := by
  intro ts
  induction ts with
  | nil =>
    intro t c i k tsk hget _
    simp at hget
  | cons hd rest ih =>
    intro t c i k tsk hget hid0
    by_cases hst : stop t = true
    · simp only [streamTiers, if_pos hst]
      exact ⟨rfl, rfl, Or.inl rfl⟩
    · cases k with
      | zero =>
        have hhd : hd = tsk := by simpa using hget
        have hid : hd.tier.id_ = none := by rw [hhd]; exact hid0
        simp only [streamTiers, if_neg hst, hid]
        have hm := streamTiers_mem stop rest (t + 1) c (i + 1)
        refine ⟨?_, ?_, Or.inr ?_⟩
        · apply tierReserveQtys_eq_nil
          intro i' cx q u hmem
          rcases List.mem_cons.1 hmem with h | h
          · exact absurd h (by simp)
          · have := (hm _ h).1 i' cx q u rfl
            omega
        · apply tierRecordCtxs_eq_nil
          intro i' cc hmem
          rcases List.mem_cons.1 hmem with h | h
          · exact absurd h (by simp)
          · have := (hm _ h).2.2.1 i' cc rfl
            omega
        · have htail : tierUpdTotals (i + 0)
              (streamTiers stop rest (t + 1) c (i + 1)).acts = [] := by
            apply tierUpdTotals_eq_nil
            intro i' n x u hmem
            have := (hm _ hmem).2.1 i' n x u rfl
            omega
          simp only [tierUpdTotals, List.filterMap_cons] at htail ⊢
          simp only [Nat.add_zero] at htail ⊢
          simp [htail]
      | succ k' =>
        have hget' : rest[k']? = some tsk := by simpa using hget
        have harith : i + 1 + k' = i + (k' + 1) := by omega
        cases hid : hd.tier.id_ with
        | none =>
          obtain ⟨ih1, ih2, ih3⟩ := ih (t + 1) c (i + 1) k' tsk hget' hid0
          rw [harith] at ih1 ih2 ih3
          simp only [streamTiers, if_neg hst, hid]
          refine ⟨?_, ?_, ?_⟩
          · simp only [tierReserveQtys, List.filterMap_cons] at ih1 ⊢
            exact ih1
          · simp only [tierRecordCtxs, List.filterMap_cons] at ih2 ⊢
            exact ih2
          · have hne : i ≠ i + (k' + 1) := by omega
            simp only [tierUpdTotals, List.filterMap_cons, if_neg hne] at ih3 ⊢
            exact ih3
        | some sid =>
          have hlm := streamTierLoop_mem stop i hd.tier.name hd.views 0 (t + 1) c
          have hlr : tierReserveQtys (i + (k' + 1))
              (streamTierLoop stop i hd.tier.name hd.views 0 (t + 1) c).acts = [] := by
            apply tierReserveQtys_eq_nil
            intro i' cx q u hmem
            have := ((hlm _ hmem).2.1 i' cx q u rfl).1
            omega
          have hlc : tierRecordCtxs (i + (k' + 1))
              (streamTierLoop stop i hd.tier.name hd.views 0 (t + 1) c).acts = [] := by
            apply tierRecordCtxs_eq_nil
            intro i' cc hmem
            have := (hlm _ hmem).2.2.1 i' cc rfl
            omega
          have hlu : tierUpdTotals (i + (k' + 1))
              (streamTierLoop stop i hd.tier.name hd.views 0 (t + 1) c).acts = [] := by
            apply tierUpdTotals_eq_nil
            intro i' n x u hmem
            have := ((hlm _ hmem).1 i' n x u rfl).1
            omega
          by_cases herr : (streamTierLoop stop i hd.tier.name hd.views 0 (t + 1) c).err = true
          · simp only [streamTiers, if_neg hst, hid, if_pos herr]
            exact ⟨hlr, hlc, Or.inl hlu⟩
          · obtain ⟨ih1, ih2, ih3⟩ := ih
              (streamTierLoop stop i hd.tier.name hd.views 0 (t + 1) c).nextT
              (streamTierLoop stop i hd.tier.name hd.views 0 (t + 1) c).ctx
              (i + 1) k' tsk hget' hid0
            rw [harith] at ih1 ih2 ih3
            have hne : i ≠ i + (k' + 1) := by omega
            simp only [streamTiers, if_neg hst, hid, if_neg herr]
            refine ⟨?_, ?_, ?_⟩
            · simp only [tierReserveQtys, List.filterMap_append, List.filterMap_cons] at ih1 hlr ⊢
              rw [hlr, ih1]
              rfl
            · simp only [tierRecordCtxs, List.filterMap_append, List.filterMap_cons] at ih2 hlc ⊢
              rw [hlc, ih2]
              rfl
            · simp only [tierUpdTotals, List.filterMap_append, List.filterMap_cons,
                if_neg hne] at ih3 hlu ⊢
              rw [hlu]
              rcases ih3 with h | h
              · exact Or.inl (by rw [h]; rfl)
              · exact Or.inr (by rw [h]; rfl)

lemma falseStop_not (t : Nat) : ¬ falseStop t = true := by
  simp [falseStop]

lemma streamTiers_master :
    ∀ (ts : List TierSpec) (t c i k : Nat) (tsk : TierSpec),
      ts[k]? = some tsk → (∀ x ∈ ts, noFail x.views = true) →
      (∀ sid, tsk.tier.id_ = some sid →
        tierUpdTotals (i + k) (streamTiers falseStop ts t c i).acts =
          sumsFrom 0 (cycleQtys tsk.views) ++ [(cycleQtys tsk.views).sum] ∧
        tierReserveQtys (i + k) (streamTiers falseStop ts t c i).acts =
          cycleQtys tsk.views ∧
        (tierRecordCtxs (i + k) (streamTiers falseStop ts t c i).acts).length =
          (cycleQtys tsk.views).length) ∧
      (tsk.tier.id_ = none →
        tierUpdTotals (i + k) (streamTiers falseStop ts t c i).acts = [0]) := by
  intro ts
  induction ts with
  | nil =>
    intro t c i k tsk hget _
    simp at hget
  | cons hd rest ih =>
    intro t c i k tsk hget hf
    have hst := falseStop_not t
    have hfrest : ∀ x ∈ rest, noFail x.views = true :=
      fun x hx => hf x (List.mem_cons_of_mem _ hx)
    cases k with
    | zero =>
      have hhd : hd = tsk := by simpa using hget
      have hm := streamTiers_mem falseStop rest
      constructor
      · intro sid hsid
        have hid : hd.tier.id_ = some sid := by rw [hhd]; exact hsid
        have hnf : noFail hd.views = true := by
          have := hf hd (List.mem_cons_self _ _)
          exact this
        have herr : (streamTierLoop falseStop i hd.tier.name hd.views 0 (t + 1) c).err = false :=
          streamTierLoop_noFail falseStop i hd.tier.name hd.views 0 (t + 1) c hnf
        have herr' : ¬ (streamTierLoop falseStop i hd.tier.name hd.views 0 (t + 1) c).err = true := by
          rw [herr]; simp
        obtain ⟨hT1, hT2, _⟩ := streamTierLoop_totals falseStop i hd.tier.name hd.views 0 (t + 1) c
        have hq := streamTierLoop_false_qtys i hd.tier.name hd.views 0 (t + 1) c
        have hlm := streamTierLoop_mem falseStop i hd.tier.name hd.views 0 (t + 1) c
        have hviews : hd.views = tsk.views := by rw [hhd]
        have hLu : tierUpdTotals (i + 0)
            (streamTierLoop falseStop i hd.tier.name hd.views 0 (t + 1) c).acts =
            updTotalsOf (streamTierLoop falseStop i hd.tier.name hd.views 0 (t + 1) c).acts :=
          tierUpdTotals_all_eq (fun i' n x u hmem => ((hlm _ hmem).1 i' n x u rfl).1)
        have hLr : tierReserveQtys (i + 0)
            (streamTierLoop falseStop i hd.tier.name hd.views 0 (t + 1) c).acts =
            reserveQtysOf (streamTierLoop falseStop i hd.tier.name hd.views 0 (t + 1) c).acts :=
          tierReserveQtys_all_eq (fun i' cx q u hmem => ((hlm _ hmem).2.1 i' cx q u rfl).1)
        have hLc : tierRecordCtxs (i + 0)
            (streamTierLoop falseStop i hd.tier.name hd.views 0 (t + 1) c).acts =
            recordCtxs (streamTierLoop falseStop i hd.tier.name hd.views 0 (t + 1) c).acts :=
          tierRecordCtxs_all_eq (fun i' cc hmem => (hlm _ hmem).2.2.1 i' cc rfl)
        have hRu : tierUpdTotals (i + 0)
            (streamTiers falseStop rest
              (streamTierLoop falseStop i hd.tier.name hd.views 0 (t + 1) c).nextT
              (streamTierLoop falseStop i hd.tier.name hd.views 0 (t + 1) c).ctx (i + 1)).acts
            = [] := by
          apply tierUpdTotals_eq_nil
          intro i' n x u hmem
          have := (hm _ _ _ _ hmem).2.1 i' n x u rfl
          omega
        have hRr : tierReserveQtys (i + 0)
            (streamTiers falseStop rest
              (streamTierLoop falseStop i hd.tier.name hd.views 0 (t + 1) c).nextT
              (streamTierLoop falseStop i hd.tier.name hd.views 0 (t + 1) c).ctx (i + 1)).acts
            = [] := by
          apply tierReserveQtys_eq_nil
          intro i' cx q u hmem
          have := ((hm _ _ _ _ hmem).1 i' cx q u rfl).1
          omega
        have hRc : tierRecordCtxs (i + 0)
            (streamTiers falseStop rest
              (streamTierLoop falseStop i hd.tier.name hd.views 0 (t + 1) c).nextT
              (streamTierLoop falseStop i hd.tier.name hd.views 0 (t + 1) c).ctx (i + 1)).acts
            = [] := by
          apply tierRecordCtxs_eq_nil
          intro i' cc hmem
          have := (hm _ _ _ _ hmem).2.2.1 i' cc rfl
          omega
        have hlen := streamTierLoop_record_len falseStop i hd.tier.name hd.views 0 (t + 1) c
        refine ⟨?_, ?_, ?_⟩
        · simp only [streamTiers, if_neg hst, hid, if_neg herr', ← hviews]
          simp only [tierUpdTotals, List.filterMap_append, List.filterMap_cons] at hLu hRu ⊢
          simp only [Nat.add_zero] at hLu hRu ⊢
          simp only [updTotalsOf] at hT1 hLu
          simp only [reserveQtysOf] at hT2 hq hT1
          rw [hLu, hT1, hq, hRu, hT2, hq]
          simp
        · simp only [streamTiers, if_neg hst, hid, if_neg herr', ← hviews]
          simp only [tierReserveQtys, List.filterMap_append, List.filterMap_cons] at hLr hRr ⊢
          simp only [Nat.add_zero] at hLr hRr ⊢
          simp only [reserveQtysOf] at hq hLr
          rw [hLr, hq, hRr]
          simp
        · simp only [streamTiers, if_neg hst, hid, if_neg herr', ← hviews]
          simp only [tierRecordCtxs, List.filterMap_append, List.filterMap_cons] at hLc hRc ⊢
          simp only [Nat.add_zero] at hLc hRc ⊢
          simp only [recordCtxs] at hLc hlen
          simp only [reserveQtysOf] at hlen hq
          rw [hLc, hRc]
          simp only [List.length_append]
          rw [hlen, hq]
          simp
      · intro hid0
        have hid : hd.tier.id_ = none := by rw [hhd]; exact hid0
        simp only [streamTiers, if_neg hst, hid]
        have hRu : tierUpdTotals (i + 0)
            (streamTiers falseStop rest (t + 1) c (i + 1)).acts = [] := by
          apply tierUpdTotals_eq_nil
          intro i' n x u hmem
          have := (hm _ _ _ _ hmem).2.1 i' n x u rfl
          omega
        simp only [tierUpdTotals, List.filterMap_cons] at hRu ⊢
        simp only [Nat.add_zero] at hRu ⊢
        simp [hRu]
    | succ k' =>
      have hget' : rest[k']? = some tsk := by simpa using hget
      have harith : i + 1 + k' = i + (k' + 1) := by omega
      have hne : i ≠ i + (k' + 1) := by omega
      cases hid : hd.tier.id_ with
      | none =>
        obtain ⟨ihs, ihn⟩ := ih (t + 1) c (i + 1) k' tsk hget' hfrest
        rw [harith] at ihs ihn
        constructor
        · intro sid hsid
          obtain ⟨ih1, ih2, ih3⟩ := ihs sid hsid
          simp only [streamTiers, if_neg hst, hid]
          refine ⟨?_, ?_, ?_⟩
          · simp only [tierUpdTotals, List.filterMap_cons, if_neg hne] at ih1 ⊢
            exact ih1
          · simp only [tierReserveQtys, List.filterMap_cons] at ih2 ⊢
            exact ih2
          · simp only [tierRecordCtxs, List.filterMap_cons] at ih3 ⊢
            exact ih3
        · intro hid0
          have ih1 := ihn hid0
          simp only [streamTiers, if_neg hst, hid]
          simp only [tierUpdTotals, List.filterMap_cons, if_neg hne] at ih1 ⊢
          exact ih1
      | some sid0 =>
        have hnf : noFail hd.views = true := hf hd (List.mem_cons_self _ _)
        have herr : (streamTierLoop falseStop i hd.tier.name hd.views 0 (t + 1) c).err = false :=
          streamTierLoop_noFail falseStop i hd.tier.name hd.views 0 (t + 1) c hnf
        have herr' : ¬ (streamTierLoop falseStop i hd.tier.name hd.views 0 (t + 1) c).err = true := by
          rw [herr]; simp
        have hlm := streamTierLoop_mem falseStop i hd.tier.name hd.views 0 (t + 1) c
        have hlr : tierReserveQtys (i + (k' + 1))
            (streamTierLoop falseStop i hd.tier.name hd.views 0 (t + 1) c).acts = [] := by
          apply tierReserveQtys_eq_nil
          intro i' cx q u hmem
          have := ((hlm _ hmem).2.1 i' cx q u rfl).1
          omega
        have hlc : tierRecordCtxs (i + (k' + 1))
            (streamTierLoop falseStop i hd.tier.name hd.views 0 (t + 1) c).acts = [] := by
          apply tierRecordCtxs_eq_nil
          intro i' cc hmem
          have := (hlm _ hmem).2.2.1 i' cc rfl
          omega
        have hlu : tierUpdTotals (i + (k' + 1))
            (streamTierLoop falseStop i hd.tier.name hd.views 0 (t + 1) c).acts = [] := by
          apply tierUpdTotals_eq_nil
          intro i' n x u hmem
          have := ((hlm _ hmem).1 i' n x u rfl).1
          omega
        obtain ⟨ihs, ihn⟩ := ih
          (streamTierLoop falseStop i hd.tier.name hd.views 0 (t + 1) c).nextT
          (streamTierLoop falseStop i hd.tier.name hd.views 0 (t + 1) c).ctx
          (i + 1) k' tsk hget' hfrest
        rw [harith] at ihs ihn
        constructor
        · intro sid hsid
          obtain ⟨ih1, ih2, ih3⟩ := ihs sid hsid
          simp only [streamTiers, if_neg hst, hid, if_neg herr']
          refine ⟨?_, ?_, ?_⟩
          · simp only [tierUpdTotals, List.filterMap_append, List.filterMap_cons,
              if_neg hne] at ih1 hlu ⊢
            rw [hlu, ih1]
            rfl
          · simp only [tierReserveQtys, List.filterMap_append, List.filterMap_cons] at ih2 hlr ⊢
            rw [hlr, ih2]
            rfl
          · simp only [tierRecordCtxs, List.filterMap_append, List.filterMap_cons] at ih3 hlc ⊢
            rw [hlc]
            simp only [List.length_append, List.length_nil]
            rw [ih3]
            simp
        · intro hid0
          have ih1 := ihn hid0
          simp only [streamTiers, if_neg hst, hid, if_neg herr']
          simp only [tierUpdTotals, List.filterMap_append, List.filterMap_cons,
            if_neg hne] at ih1 hlu ⊢
          rw [hlu, ih1]
          rfl

/-! ### Compensation sweep lemmas -/

lemma sweepActs_shape (hs : List Nat) :
    ∀ a ∈ sweepActs hs, (∃ c, a = Act.sweepCancel c) ∨ (∃ c, a = Act.closeCtx c) := by
  induction hs with
  | nil => intro a ha; simp [sweepActs] at ha
  | cons c rest ih =>
    intro a ha
    simp only [sweepActs, List.flatMap_cons, List.cons_append, List.mem_cons] at ha
    rcases ha with ha | ha | ha
    · exact Or.inl ⟨c, ha⟩
    · exact Or.inr ⟨c, ha⟩
    · exact ih a ha

lemma sweepActs_closeCtxs (hs : List Nat) : closeCtxsOf (sweepActs hs) = hs := by
  induction hs with
  | nil => rfl
  | cons c rest ih =>
    simp only [sweepActs, List.flatMap_cons, List.cons_append] at *
    simp only [closeCtxsOf, List.filterMap_cons] at ih ⊢
    simpa using ih

lemma sweepActs_sweepCtxs (hs : List Nat) : sweepCtxsOf (sweepActs hs) = hs := by
  induction hs with
  | nil => rfl
  | cons c rest ih =>
    simp only [sweepActs, List.flatMap_cons, List.cons_append] at *
    simp only [sweepCtxsOf, List.filterMap_cons] at ih ⊢
    simpa using ih

lemma sweepActs_mem {c : Nat} {hs : List Nat} (hc : c ∈ hs) :
    Act.sweepCancel c ∈ sweepActs hs ∧ Act.closeCtx c ∈ sweepActs hs := by
  induction hs with
  | nil => cases hc
  | cons c0 rest ih =>
    simp only [sweepActs, List.flatMap_cons, List.cons_append, List.mem_cons]
    rcases List.mem_cons.1 hc with h | h
    · subst h
      exact ⟨Or.inl rfl, Or.inr (Or.inl rfl)⟩
    · obtain ⟨h1, h2⟩ := ih h
      exact ⟨Or.inr (Or.inr h1), Or.inr (Or.inr h2)⟩

/-! ### Whole-session (`run_stream`) lemmas -/

/-- The generator body of a session: everything before the `finally`. -/
def bodyActs (stop : Nat → Bool) (tiers : List TierSpec) : List Act :=
  (streamTiers stop tiers 0 0 0).acts ++
    (if (streamTiers stop tiers 0 0 0).err then [] else [Act.yieldComplete])

lemma runStream_acts_eq (stop : Nat → Bool) (tiers : List TierSpec) :
    (runStream stop tiers).acts =
      Act.navControl :: Act.navControl ::
        (bodyActs stop tiers ++ sweepActs (recordCtxs (bodyActs stop tiers)) ++
          [Act.quitDriver]) := rfl

lemma bodyActs_mem (stop : Nat → Bool) (tiers : List TierSpec) :
    ∀ a ∈ bodyActs stop tiers,
      a = Act.yieldComplete ∨
      ((∀ i' cx q u, a = Act.reserve i' cx q u → stop u = false ∧ 0 < q ∧ ∃ mm, cx = Ctx.tab mm) ∧
       a ≠ Act.yieldComplete ∧ a ≠ Act.quitDriver ∧
       (∀ cc, a ≠ Act.sweepCancel cc) ∧ (∀ cc, a ≠ Act.closeCtx cc)) := by
  intro a ha
  rw [bodyActs] at ha
  rcases List.mem_append.1 ha with h | h
  · have hm := streamTiers_mem stop tiers 0 0 0 a h
    exact Or.inr ⟨fun i' cx q u he => ⟨(hm.1 i' cx q u he).2.1, (hm.1 i' cx q u he).2.2.1,
      (hm.1 i' cx q u he).2.2.2⟩, hm.2.2.2.1, hm.2.2.2.2.1, hm.2.2.2.2.2.1, hm.2.2.2.2.2.2⟩
  · left
    cases herr : (streamTiers stop tiers 0 0 0).err
    · rw [herr] at h
      simp at h
      exact h
    · rw [herr] at h
      simp at h

lemma bodyActs_records (stop : Nat → Bool) (tiers : List TierSpec) :
    recordCtxs (bodyActs stop tiers) = recordCtxs (streamTiers stop tiers 0 0 0).acts := by
  rw [bodyActs]
  simp only [recordCtxs, List.filterMap_append]
  cases herr : (streamTiers stop tiers 0 0 0).err <;> simp

lemma runStream_records (stop : Nat → Bool) (tiers : List TierSpec) :
    recordCtxs (runStream stop tiers).acts = recordCtxs (bodyActs stop tiers) := by
  rw [runStream_acts_eq]
  simp only [recordCtxs, List.filterMap_cons, List.filterMap_append]
  have hsw : List.filterMap (fun a => match a with
      | Act.record _ c => some c
      | _ => none) (sweepActs (recordCtxs (bodyActs stop tiers))) = [] := by
    rw [List.filterMap_eq_nil]
    intro a ha
    rcases sweepActs_shape _ a ha with ⟨c, rfl⟩ | ⟨c, rfl⟩ <;> rfl
  simp only [recordCtxs] at hsw
  rw [hsw]
  simp

lemma runStream_closes (stop : Nat → Bool) (tiers : List TierSpec) :
    closeCtxsOf (runStream stop tiers).acts = recordCtxs (bodyActs stop tiers) := by
  rw [runStream_acts_eq]
  simp only [closeCtxsOf, List.filterMap_cons, List.filterMap_append]
  have hbody : List.filterMap (fun a => match a with
      | Act.closeCtx c => some c
      | _ => none) (bodyActs stop tiers) = [] := by
    rw [List.filterMap_eq_nil]
    intro a ha
    rcases bodyActs_mem stop tiers a ha with h | h
    · subst h; rfl
    · cases a <;> try rfl
      case closeCtx c => exact absurd rfl (h.2.2.2.2 c)
  have hsw := sweepActs_closeCtxs (recordCtxs (bodyActs stop tiers))
  simp only [closeCtxsOf, recordCtxs] at hsw ⊢
  rw [hbody, hsw]
  simp

lemma runStream_sweeps (stop : Nat → Bool) (tiers : List TierSpec) :
    sweepCtxsOf (runStream stop tiers).acts = recordCtxs (bodyActs stop tiers) := by
  rw [runStream_acts_eq]
  simp only [sweepCtxsOf, List.filterMap_cons, List.filterMap_append]
  have hbody : List.filterMap (fun a => match a with
      | Act.sweepCancel c => some c
      | _ => none) (bodyActs stop tiers) = [] := by
    rw [List.filterMap_eq_nil]
    intro a ha
    rcases bodyActs_mem stop tiers a ha with h | h
    · subst h; rfl
    · cases a <;> try rfl
      case sweepCancel c => exact absurd rfl (h.2.2.2.1 c)
  have hsw := sweepActs_sweepCtxs (recordCtxs (bodyActs stop tiers))
  simp only [sweepCtxsOf, recordCtxs] at hsw ⊢
  rw [hbody, hsw]
  simp

lemma runStream_records_nodup (stop : Nat → Bool) (tiers : List TierSpec) :
    (recordCtxs (bodyActs stop tiers)).Nodup := by
  obtain ⟨K, J, h1, _, _, _, _⟩ := streamTiers_ctx stop tiers 0 0 0
  rw [bodyActs_records, h1]
  exact List.nodup_range' 0 K

lemma runStream_reserve (stop : Nat → Bool) (tiers : List TierSpec) :
    ∀ i cx q u, Act.reserve i cx q u ∈ (runStream stop tiers).acts →
      stop u = false ∧ 0 < q ∧ ∃ mm, cx = Ctx.tab mm := by
  intro i cx q u hmem
  rw [runStream_acts_eq] at hmem
  rcases List.mem_cons.1 hmem with h | h
  · cases h
  rcases List.mem_cons.1 h with h | h
  · cases h
  rcases List.mem_append.1 h with h | h
  rcases List.mem_append.1 h with h | h
  · rcases bodyActs_mem stop tiers _ h with h1 | h1
    · cases h1
    · exact h1.1 i cx q u rfl
  · rcases sweepActs_shape _ _ h with ⟨c, hc⟩ | ⟨c, hc⟩ <;> cases hc
  · rcases List.mem_singleton.1 h with h
    cases h

lemma runStream_upd_post (stop : Nat → Bool) (tiers : List TierSpec) :
    ∀ (i : Nat) (n : String) (x u : Nat),
      Act.yieldUpd i n x u ∈ (runStream stop tiers).acts → stop u = true →
      x = 0 ∨ ∃ n' u', Act.yieldUpd i n' x u' ∈ (runStream stop tiers).acts ∧
        stop u' = false := by
  intro i n x u hmem hu
  have hbody : Act.yieldUpd i n x u ∈ (streamTiers stop tiers 0 0 0).acts := by
    rw [runStream_acts_eq] at hmem
    rcases List.mem_cons.1 hmem with h | h
    · cases h
    rcases List.mem_cons.1 h with h | h
    · cases h
    rcases List.mem_append.1 h with h | h
    rcases List.mem_append.1 h with h | h
    · rw [bodyActs] at h
      rcases List.mem_append.1 h with h | h
      · exact h
      · cases herr : (streamTiers stop tiers 0 0 0).err <;> rw [herr] at h <;> simp at h
    · rcases sweepActs_shape _ _ h with ⟨c, hc⟩ | ⟨c, hc⟩ <;> cases hc
    · rcases List.mem_singleton.1 h with h
      cases h
  rcases streamTiers_upd_post stop tiers 0 0 0 i n x u hbody hu with h0 | ⟨n', u', hm', hs'⟩
  · exact Or.inl h0
  · refine Or.inr ⟨n', u', ?_, hs'⟩
    rw [runStream_acts_eq]
    refine List.mem_cons_of_mem _ (List.mem_cons_of_mem _ ?_)
    refine List.mem_append_left _ (List.mem_append_left _ ?_)
    rw [bodyActs]
    exact List.mem_append_left _ hm'

/-! ### Worker / consumer pipeline lemmas -/

/-- Terminal queue messages. -/
def isTermQ : QMsg → Bool
  | QMsg.completeQ => true
  | QMsg.errorQ => true
  | _ => false

lemma consumerSend_le_one (q : List QMsg) :
    (consumerSend q).countP (fun m => isTerminal m) ≤ 1 := by
  induction q with
  | nil => simp [consumerSend]
  | cons m rest ih =>
    cases m with
    | errorQ => simp [consumerSend, List.countP_cons, isTerminal]
    | completeQ => simp [consumerSend, List.countP_cons, isTerminal]
    | tierQ n s =>
      simp only [consumerSend, List.countP_cons, isTerminal]
      simpa using ih

lemma consumerSend_one_of_term {q : List QMsg} (h : ∃ m ∈ q, isTermQ m = true) :
    (consumerSend q).countP (fun m => isTerminal m) = 1 := by
  induction q with
  | nil => obtain ⟨m, hm, _⟩ := h; cases hm
  | cons m rest ih =>
    cases m with
    | errorQ => simp [consumerSend, List.countP_cons, isTerminal]
    | completeQ => simp [consumerSend, List.countP_cons, isTerminal]
    | tierQ n s =>
      obtain ⟨m0, hm0, ht0⟩ := h
      rcases List.mem_cons.1 hm0 with h0 | h0
      · rw [h0] at ht0
        simp [isTermQ] at ht0
      · have := ih ⟨m0, h0, ht0⟩
        simp only [consumerSend, List.countP_cons, isTerminal]
        simpa using this

lemma workerLoop_term_of_false {wstop : Nat → Bool} (hw : ∀ j, wstop j = false)
    (err : Bool) :
    ∀ (items : List Item) (i : Nat),
      ∃ m ∈ workerLoop wstop err items i, isTermQ m = true := by
  intro items
  induction items with
  | nil =>
    intro i
    cases err with
    | true => exact ⟨QMsg.errorQ, by simp [workerLoop], rfl⟩
    | false =>
      refine ⟨QMsg.completeQ, ?_, rfl⟩
      simp [workerLoop, hw i]
  | cons it rest ih =>
    intro i
    obtain ⟨m, hm, ht⟩ := ih (i + 1)
    refine ⟨m, ?_, ht⟩
    simp only [workerLoop, hw i]
    simp
    right
    exact hm

/-! ### Batch mode lemmas -/

lemma countStockForTier_total (idx : Nat) :
    ∀ (views : List CycleView) (total : Nat), noFail views = true →
      (countStockForTier idx views total).total = total + (cycleQtys views).sum := by
  intro views
  induction views with
  | nil => intro total _; simp [countStockForTier, cycleQtys]
  | cons v rest ih =>
    intro total hnf
    rw [noFail, List.all_cons, Bool.and_eq_true] at hnf
    obtain ⟨hv, hrest⟩ := hnf
    cases v with
    | absent => simp [countStockForTier, cycleQtys]
    | options vals =>
      by_cases he : (parseOpts vals).isEmpty = true
      · simp [countStockForTier, cycleQtys, he]
      · have ih' := ih (total + chooseQty (parseOpts vals)) hrest
        rw [cycleQtys, if_neg he]
        simp only [countStockForTier, if_neg he]
        rw [ih']
        simp [List.sum_cons]
        omega
    | fail vals => simp at hv

/-! ### Stop-event lemmas -/

lemma runOps_true {ops : List StopOp} (h : ∀ op ∈ ops, op = StopOp.setOp) :
    runOps true ops = true := by
  induction ops with
  | nil => rfl
  | cons op rest ih =>
    have hop : op = StopOp.setOp := h op (List.mem_cons_self _ _)
    subst hop
    exact ih (fun op' hop' => h op' (List.mem_cons_of_mem _ hop'))

lemma wsStopOps_all_set : ∀ op ∈ wsStopOps, op = StopOp.setOp := by
  intro op hop
  rcases List.mem_cons.1 hop with h | h
  · exact h
  rcases List.mem_cons.1 h with h | h
  · exact h
  rcases List.mem_singleton.1 h with h
  exact h

lemma sumsFrom_length (s : Nat) : ∀ qs : List Nat, (sumsFrom s qs).length = qs.length := by
  intro qs
  induction qs generalizing s with
  | nil => rfl
  | cons q rest ih =>
    rw [sumsFrom]
    simp only [List.length_cons]
    rw [ih]

lemma mem_openCtxsOf {m : Nat} {acts : List Act} :
    m ∈ openCtxsOf acts ↔ Act.openCtx m ∈ acts := by
  simp only [openCtxsOf, List.mem_filterMap]
  constructor
  · rintro ⟨a, ha, h⟩
    cases a <;> try exact Option.noConfusion h
    case openCtx c =>
      simp only [Option.some.injEq] at h
      rw [← h]
      exact ha
  · intro h
    exact ⟨Act.openCtx m, h, rfl⟩

lemma runStream_tierUpds (stop : Nat → Bool) (tiers : List TierSpec) (k : Nat) :
    tierUpdTotals k (runStream stop tiers).acts =
      tierUpdTotals k (streamTiers stop tiers 0 0 0).acts := by
  rw [runStream_acts_eq]
  simp only [tierUpdTotals, List.filterMap_cons, List.filterMap_append]
  have hsw : List.filterMap (fun a => match a with
      | Act.yieldUpd i _ s _ => if i = k then some s else none
      | _ => none) (sweepActs (recordCtxs (bodyActs stop tiers))) = [] := by
    rw [List.filterMap_eq_nil]
    intro a ha
    rcases sweepActs_shape _ a ha with ⟨c, rfl⟩ | ⟨c, rfl⟩ <;> rfl
  rw [hsw]
  simp only [bodyActs, List.filterMap_append]
  cases herr : (streamTiers stop tiers 0 0 0).err <;> simp

lemma runStream_tierReserves (stop : Nat → Bool) (tiers : List TierSpec) (k : Nat) :
    tierReserveQtys k (runStream stop tiers).acts =
      tierReserveQtys k (streamTiers stop tiers 0 0 0).acts := by
  rw [runStream_acts_eq]
  simp only [tierReserveQtys, List.filterMap_cons, List.filterMap_append]
  have hsw : List.filterMap (fun a => match a with
      | Act.reserve i _ q _ => if i = k then some q else none
      | _ => none) (sweepActs (recordCtxs (bodyActs stop tiers))) = [] := by
    rw [List.filterMap_eq_nil]
    intro a ha
    rcases sweepActs_shape _ a ha with ⟨c, rfl⟩ | ⟨c, rfl⟩ <;> rfl
  rw [hsw]
  simp only [bodyActs, List.filterMap_append]
  cases herr : (streamTiers stop tiers 0 0 0).err <;> simp

lemma runStream_tierRecords (stop : Nat → Bool) (tiers : List TierSpec) (k : Nat) :
    tierRecordCtxs k (runStream stop tiers).acts =
      tierRecordCtxs k (streamTiers stop tiers 0 0 0).acts := by
  rw [runStream_acts_eq]
  simp only [tierRecordCtxs, List.filterMap_cons, List.filterMap_append]
  have hsw : List.filterMap (fun a => match a with
      | Act.record i c => if i = k then some c else none
      | _ => none) (sweepActs (recordCtxs (bodyActs stop tiers))) = [] := by
    rw [List.filterMap_eq_nil]
    intro a ha
    rcases sweepActs_shape _ a ha with ⟨c, rfl⟩ | ⟨c, rfl⟩ <;> rfl
  rw [hsw]
  simp only [bodyActs, List.filterMap_append]
  cases herr : (streamTiers stop tiers 0 0 0).err <;> simp

lemma runStream_reserveTabs (stop : Nat → Bool) (tiers : List TierSpec) :
    reserveTabsOf (runStream stop tiers).acts =
      reserveTabsOf (streamTiers stop tiers 0 0 0).acts := by
  rw [runStream_acts_eq]
  simp only [reserveTabsOf, List.filterMap_cons, List.filterMap_append]
  have hsw : List.filterMap (fun a => match a with
      | Act.reserve _ (Ctx.tab m) _ _ => some m
      | _ => none) (sweepActs (recordCtxs (bodyActs stop tiers))) = [] := by
    rw [List.filterMap_eq_nil]
    intro a ha
    rcases sweepActs_shape _ a ha with ⟨c, rfl⟩ | ⟨c, rfl⟩ <;> rfl
  rw [hsw]
  simp only [bodyActs, List.filterMap_append]
  cases herr : (streamTiers stop tiers 0 0 0).err <;> simp

lemma runStream_mem_of_body {stop : Nat → Bool} {tiers : List TierSpec} {a : Act}
    (h : a ∈ (streamTiers stop tiers 0 0 0).acts) :
    a ∈ (runStream stop tiers).acts := by
  rw [runStream_acts_eq]
  refine List.mem_cons_of_mem _ (List.mem_cons_of_mem _ ?_)
  refine List.mem_append_left _ (List.mem_append_left _ ?_)
  rw [bodyActs]
  exact List.mem_append_left _ h

/-! ### Concrete example sessions -/

/-- A tier whose control offers options 1, 2, 5 once and then disappears. -/
def exTierOne : TierSpec :=
  ⟨⟨some "tickets_ticket_list_1_qty", "Entradas de 10€", 0⟩,
   [CycleView.options ["1", "2", "5"], CycleView.absent]⟩

/-- A tier with a single probe cycle offering quantity 2. -/
def exTierSmall : TierSpec :=
  ⟨⟨some "tickets_ticket_list_2_qty", "Entradas de 8€", 0⟩,
   [CycleView.options ["2"], CycleView.absent]⟩

/-- A tier with a single probe cycle offering quantity 3. -/
def exTierBatch : TierSpec :=
  ⟨⟨some "tickets_ticket_list_3_qty", "Entradas de 15€", 0⟩,
   [CycleView.options ["3"], CycleView.absent]⟩

/-- A tier discovered without a quantity control (sold out). -/
def exTierSoldOut : TierSpec := ⟨⟨none, "Tanda sin precio", 0⟩, []⟩

/-- A tier with two successful probe cycles (4 then 3, total 7). -/
def exTierTwoCycles : TierSpec :=
  ⟨⟨some "tickets_ticket_list_4_qty", "Entradas de 12€", 0⟩,
   [CycleView.options ["2", "4"], CycleView.options ["1", "3"], CycleView.absent]⟩

/-- A stop schedule observed set from the third check onwards. -/
def exStopAfterTwo : Nat → Bool := fun i => decide (2 ≤ i)

/-- A worker-side stop schedule observed set from the second pulled item. -/
def exWStopAfterOne : Nat → Bool := fun i => decide (1 ≤ i)

/-- A stop schedule that is set before the session starts. -/
def trueStop : Nat → Bool := fun _ => true

/-! ### Claim theorems -/

/-- C1 (amended): in streaming mode, on every terminal path, the
compensation sweep visits (cancel flow) and closes every reservation
handle recorded in the ledger, and all of that happens strictly before
`driver.quit()`, which is the session's final action.  (Batch mode `run`
violates the claim as stated: it performs reservations but records no
handles and runs no compensation sweep — see the counterexample.) -/
theorem c1_sweep_before_teardown (stop : Nat → Bool) (tiers : List TierSpec) :
    ∃ pre, (runStream stop tiers).acts = pre ++ [Act.quitDriver] ∧
      ∀ c ∈ recordCtxs (runStream stop tiers).acts,
        Act.sweepCancel c ∈ pre ∧ Act.closeCtx c ∈ pre := by
  refine ⟨Act.navControl :: Act.navControl ::
    (bodyActs stop tiers ++ sweepActs (recordCtxs (bodyActs stop tiers))), ?_, ?_⟩
  · rw [runStream_acts_eq]
    simp [List.append_assoc]
  · intro c hc
    rw [runStream_records] at hc
    have hm := sweepActs_mem hc
    exact ⟨List.mem_cons_of_mem _ (List.mem_cons_of_mem _ (List.mem_append_right _ hm.1)),
           List.mem_cons_of_mem _ (List.mem_cons_of_mem _ (List.mem_append_right _ hm.2))⟩

/-- C1 witness: the amended theorem applied to a concrete session with one
recorded handle. -/
theorem c1_sweep_witness :
    ∃ pre, (runStream falseStop [exTierSmall]).acts = pre ++ [Act.quitDriver] ∧
      Act.sweepCancel 0 ∈ pre ∧ Act.closeCtx 0 ∈ pre := by
  obtain ⟨pre, h1, h2⟩ := c1_sweep_before_teardown falseStop [exTierSmall]
  exact ⟨pre, h1, h2 0 (by decide)⟩

/-- C1 counterexample: a batch session (`EntradiumScraper.run`) that makes
one reservation performs zero compensation actions (no cancel flow, no
context close) and still tears the driver down — the claim's "in batch
mode as well" part is false on the code. -/
theorem c1_batch_counterexample :
    (runBatch [exTierBatch]).acts.countP
      (fun a => match a with | Act.reserve _ _ _ _ => true | _ => false) = 1 ∧
    (runBatch [exTierBatch]).acts.countP
      (fun a => match a with | Act.sweepCancel _ => true | _ => false) = 0 ∧
    (runBatch [exTierBatch]).acts.countP
      (fun a => match a with | Act.closeCtx _ => true | _ => false) = 0 ∧
    Act.quitDriver ∈ (runBatch [exTierBatch]).acts := by decide

/-- C2 (amended): a streaming session delivers at most one terminal
websocket message on any schedule, and exactly one whenever the worker
never observes the stop event; a session cancelled before the worker
forwards a terminal item delivers zero terminal messages (see the
counterexample), so "exactly one even when cancelled" fails. -/
theorem c2_exactly_one_terminal (stop wstop : Nat → Bool) (tiers : List TierSpec) :
    (wsOutput stop wstop tiers).countP (fun m => isTerminal m) ≤ 1 ∧
    ((∀ j, wstop j = false) →
      (wsOutput stop wstop tiers).countP (fun m => isTerminal m) = 1) := by
  constructor
  · exact consumerSend_le_one _
  · intro hw
    exact consumerSend_one_of_term (workerLoop_term_of_false hw _ _ 0)

/-- C2 witness: an uncancelled concrete session delivers exactly one
terminal message. -/
theorem c2_terminal_witness :
    (wsOutput falseStop falseStop [exTierSmall]).countP (fun m => isTerminal m) = 1 :=
  (c2_exactly_one_terminal falseStop falseStop [exTierSmall]).2 (fun _ => rfl)

/-- C2 counterexample: a session whose consumer disconnects after the
first update (worker observes the stop event from item 1 onwards)
delivers one tier message and zero terminal messages — not exactly one. -/
theorem c2_cancelled_counterexample :
    wsOutput falseStop exWStopAfterOne [exTierOne] = [WireMsg.tierW "Entradas de 10€" 5] ∧
    (wsOutput falseStop exWStopAfterOne [exTierOne]).countP (fun m => isTerminal m) = 0 := by
  decide

/-- C3: on every terminal path of a streaming session, the list of
contexts closed by the compensation sweep is exactly the list of ledgered
reservation handles (same contexts, same order, hence equal counts), the
same holds for the cancel flow, and the handles are pairwise distinct —
no handle is skipped and none is processed twice. -/
theorem c3_ledger_compensation_parity (stop : Nat → Bool) (tiers : List TierSpec) :
    closeCtxsOf (runStream stop tiers).acts = recordCtxs (runStream stop tiers).acts ∧
    sweepCtxsOf (runStream stop tiers).acts = recordCtxs (runStream stop tiers).acts ∧
    (closeCtxsOf (runStream stop tiers).acts).length =
      (recordCtxs (runStream stop tiers).acts).length ∧
    (recordCtxs (runStream stop tiers).acts).Nodup ∧
    (closeCtxsOf (runStream stop tiers).acts).Nodup := by
  have h1 := runStream_closes stop tiers
  have h2 := runStream_records stop tiers
  have h3 := runStream_sweeps stop tiers
  have h4 := runStream_records_nodup stop tiers
  refine ⟨h1.trans h2.symm, h3.trans h2.symm, by rw [h1.trans h2.symm], ?_, ?_⟩
  · rw [h2]; exact h4
  · rw [h1]; exact h4

/-- C4 (amended): at every probe cycle the reserved quantity is the
maximum of the control's positive numeric options (non-numeric and
non-positive values are discarded — conjunct on `parseOpts`), the in-loop
update totals are exactly the running sums of those quantities (each
increment is exactly the cycle's qty, so they are strictly increasing),
and the tier's full emitted sequence including the trailing repeat of the
final total is non-decreasing.  The claim as stated fails only because of
that trailing update, whose increment is 0, not the cycle qty (see the
counterexample). -/
theorem c4_qty_max_and_monotone (stop : Nat → Bool) (idx : Nat) (name : String)
    (views : List CycleView) (t c : Nat) :
    updTotalsOf (streamTierLoop stop idx name views 0 t c).acts =
      sumsFrom 0 (reserveQtysOf (streamTierLoop stop idx name views 0 t c).acts) ∧
    (∀ q ∈ reserveQtysOf (streamTierLoop stop idx name views 0 t c).acts, 0 < q) ∧
    (∃ m, reserveQtysOf (streamTierLoop stop idx name views 0 t c).acts =
      (cycleQtys views).take m) ∧
    (∀ (k q : Nat), (cycleQtys views)[k]? = some q →
      ∃ vals, views[k]? = some (CycleView.options vals) ∧
        q ∈ parseOpts vals ∧ ∀ x ∈ parseOpts vals, x ≤ q) ∧
    List.Chain' (· < ·) (updTotalsOf (streamTierLoop stop idx name views 0 t c).acts) ∧
    List.Chain' (· ≤ ·) (updTotalsOf (streamTierLoop stop idx name views 0 t c).acts ++
      [(streamTierLoop stop idx name views 0 t c).stock]) ∧
    (∀ (vals : List String) (n : Nat), n ∈ parseOpts vals ↔
      ∃ s ∈ vals, isDigits s = true ∧ digitsToNat s = n ∧ 0 < n) := by
  obtain ⟨h1, h2, m, h3⟩ := streamTierLoop_totals stop idx name views 0 t c
  have hpos : ∀ q ∈ reserveQtysOf (streamTierLoop stop idx name views 0 t c).acts, 0 < q := by
    intro q hq
    rw [h3] at hq
    exact cycleQtys_pos q (List.take_subset _ _ hq)
  refine ⟨h1, hpos, ⟨m, h3⟩, cycleQtys_spec, ?_, ?_, parseOpts_mem⟩
  · rw [h1]
    exact chain_lt_sumsFrom hpos 0
  · rw [h1, h2]
    exact chain_le_sumsFrom 0 _

/-- C4 witness: the per-cycle maximum conjunct applied at a concrete
cycle: qty 5 is among the parsed options of `["1","2","5"]` and maximal. -/
theorem c4_qty_max_witness :
    ∃ vals, ([CycleView.options ["1", "2", "5"], CycleView.absent] : List CycleView)[0]? =
        some (CycleView.options vals) ∧
      5 ∈ parseOpts vals ∧ ∀ x ∈ parseOpts vals, x ≤ 5 :=
  (c4_qty_max_and_monotone falseStop 0 "Entradas de 10€"
    [CycleView.options ["1", "2", "5"], CycleView.absent] 0 0).2.2.2.1 0 5 (by decide)

/-- C4 counterexample: in a session whose tier reserves once with qty 5,
the emitted totals for the tier are `[5, 5]`: the second (trailing) update
does not exceed the first by the cycle qty — its increment is 0. -/
theorem c4_trailing_counterexample :
    tierUpdTotals 0 (runStream falseStop [exTierOne]).acts = [5, 5] ∧
    tierReserveQtys 0 (runStream falseStop [exTierOne]).acts = [5] ∧
    (tierUpdTotals 0 (runStream falseStop [exTierOne]).acts)[0]? =
      (tierUpdTotals 0 (runStream falseStop [exTierOne]).acts)[1]? := by decide

/-- C5: the websocket handler only ever sets the stop event (never
clears it), so once a prefix of its operations has set the flag it stays
set; in the scraper, a reservation only happens at a probe-cycle boundary
whose stop check read false — with a monotone (never-cleared) signal,
strictly before any check index at which the signal is set; any update
yielded at a boundary where the signal was observed set repeats a total
already yielded at a not-set boundary of the same tier, or is 0; and the
compensation sweep and `driver.quit()` still run, the quit last. -/
theorem c5_stop_signal (stop : Nat → Bool) (tiers : List TierSpec)
    (hmono : MonoStop stop) :
    (∀ op ∈ wsStopOps, op = StopOp.setOp) ∧
    (∀ pre suf, wsStopOps = pre ++ suf → runOps false pre = true →
      runOps false (pre ++ suf) = true) ∧
    (∀ t0 i cx q u, stop t0 = true →
      Act.reserve i cx q u ∈ (runStream stop tiers).acts → u < t0) ∧
    (∀ (i : Nat) (n : String) (x u : Nat),
      Act.yieldUpd i n x u ∈ (runStream stop tiers).acts → stop u = true →
      x = 0 ∨ ∃ n' u', Act.yieldUpd i n' x u' ∈ (runStream stop tiers).acts ∧
        stop u' = false) ∧
    (∃ pre, (runStream stop tiers).acts = pre ++ [Act.quitDriver] ∧
      ∀ c ∈ recordCtxs (runStream stop tiers).acts, Act.sweepCancel c ∈ pre) := by
  refine ⟨wsStopOps_all_set, ?_, ?_, runStream_upd_post stop tiers, ?_⟩
  · intro pre suf hsplit hpre
    rw [runOps, List.foldl_append]
    have hsuf : ∀ op ∈ suf, op = StopOp.setOp := by
      intro op hop
      exact wsStopOps_all_set op (by rw [hsplit]; exact List.mem_append_right _ hop)
    rw [runOps] at hpre
    rw [hpre]
    exact runOps_true hsuf
  · intro t0 i cx q u ht0 hmem
    have hu := (runStream_reserve stop tiers i cx q u hmem).1
    by_contra hlt
    have : t0 ≤ u := by omega
    have := hmono t0 u this ht0
    rw [this] at hu
    cases hu
  · refine ⟨Act.navControl :: Act.navControl ::
      (bodyActs stop tiers ++ sweepActs (recordCtxs (bodyActs stop tiers))), ?_, ?_⟩
    · rw [runStream_acts_eq]
      simp [List.append_assoc]
    · intro c hc
      rw [runStream_records] at hc
      exact List.mem_cons_of_mem _ (List.mem_cons_of_mem _
        (List.mem_append_right _ (sweepActs_mem hc).1))

/-- C5 witness: a concrete monotone schedule set from the third check;
the session records one handle, sweeps it, and quits last. -/
theorem c5_stop_witness :
    Act.sweepCancel 0 ∈ (runStream exStopAfterTwo [exTierTwoCycles]).acts ∧
    (runStream exStopAfterTwo [exTierTwoCycles]).acts.getLast? = some Act.quitDriver := by
  have hmono : MonoStop exStopAfterTwo := by
    intro i j hij hi
    simp only [exStopAfterTwo, decide_eq_true_eq] at hi ⊢
    omega
  obtain ⟨-, -, -, -, pre, hpre, hmem⟩ := c5_stop_signal exStopAfterTwo [exTierTwoCycles] hmono
  constructor
  · rw [hpre]
    exact List.mem_append_left _ (hmem 0 (by decide))
  · rw [hpre]
    exact List.getLast?_concat _

/-- C6 (amended): in streaming mode the control context never hosts a
reservation (every successful reservation happens in a numbered tab),
those tabs are pairwise distinct — a context used in one probe cycle is
never reused by a later one — and each was opened during the session.
(Batch mode violates the claim as stated: `_count_stock_for_tier`
submits every reservation in the control context itself — see the
counterexample.) -/
theorem c6_context_discipline (stop : Nat → Bool) (tiers : List TierSpec) :
    (∀ i q u, Act.reserve i Ctx.control q u ∉ (runStream stop tiers).acts) ∧
    (reserveTabsOf (runStream stop tiers).acts).Nodup ∧
    (∀ m, m ∈ reserveTabsOf (runStream stop tiers).acts →
      Act.openCtx m ∈ (runStream stop tiers).acts) := by
  obtain ⟨K, J, h1, h2, h3, h4, h5⟩ := streamTiers_ctx stop tiers 0 0 0
  refine ⟨?_, ?_, ?_⟩
  · intro i q u hmem
    obtain ⟨-, -, mm, hmm⟩ := runStream_reserve stop tiers i Ctx.control q u hmem
    cases hmm
  · rw [runStream_reserveTabs, h2]
    exact List.nodup_range' 0 K
  · intro m hm
    rw [runStream_reserveTabs, h2] at hm
    have hmJ : m ∈ List.range' 0 J := by
      rw [List.mem_range'_1] at hm ⊢
      omega
    have hmo : m ∈ openCtxsOf (streamTiers stop tiers 0 0 0).acts := by
      rw [h3]
      exact hmJ
    exact runStream_mem_of_body (mem_openCtxsOf.1 hmo)

/-- C6 witness: a concrete two-cycle session reserves in two distinct
tabs, both opened during the session. -/
theorem c6_context_witness :
    (reserveTabsOf (runStream falseStop [exTierTwoCycles]).acts).Nodup ∧
    Act.openCtx 0 ∈ (runStream falseStop [exTierTwoCycles]).acts := by
  obtain ⟨h1, h2, h3⟩ := c6_context_discipline falseStop [exTierTwoCycles]
  exact ⟨h2, h3 0 (by decide)⟩

/-- C6 counterexample: a batch session submits its reservation in the
control context — the control context does hold a reservation, so the
claim's "in batch mode as in streaming mode" part is false on the code. -/
theorem c6_batch_counterexample :
    Act.reserve 0 Ctx.control 2 0 ∈ (runBatch [exTierSmall]).acts ∧
    reserveCtxsOf (runBatch [exTierSmall]).acts = [Ctx.control] := by decide

/-- C7 (amended): a tier discovered without a quantity control triggers
zero reservations and zero ledger entries on every schedule, and yields
at most one `TierUpdate`, always with total 0 — exactly one in a session
that is never cancelled and whose page behaviour never fails a cycle.
(A session cancelled before the tier is reached emits no update for it,
so the unconditional "exactly one" of the claim fails — see the
counterexample.) -/
theorem c7_soldout_zero_cost (stop : Nat → Bool) (tiers : List TierSpec) (k : Nat)
    (tsk : TierSpec) (hget : tiers[k]? = some tsk) (hid : tsk.tier.id_ = none) :
    tierReserveQtys k (runStream stop tiers).acts = [] ∧
    tierRecordCtxs k (runStream stop tiers).acts = [] ∧
    (tierUpdTotals k (runStream stop tiers).acts = [] ∨
     tierUpdTotals k (runStream stop tiers).acts = [0]) ∧
    ((∀ x ∈ tiers, noFail x.views = true) →
      tierUpdTotals k (runStream falseStop tiers).acts = [0]) := by
  obtain ⟨h1, h2, h3⟩ := streamTiers_soldout stop tiers 0 0 0 k tsk hget hid
  rw [Nat.zero_add] at h1 h2 h3
  refine ⟨?_, ?_, ?_, ?_⟩
  · rw [runStream_tierReserves]
    exact h1
  · rw [runStream_tierRecords]
    exact h2
  · rw [runStream_tierUpds]
    exact h3
  · intro hnf
    obtain ⟨-, hn⟩ := streamTiers_master tiers 0 0 0 k tsk hget hnf
    have hz := hn hid
    rw [Nat.zero_add] at hz
    rw [runStream_tierUpds]
    exact hz

/-- C7 witness: a concrete uncancelled session with one sold-out tier:
no reservations, one update with total 0. -/
theorem c7_soldout_witness :
    tierReserveQtys 0 (runStream falseStop [exTierSoldOut]).acts = [] ∧
    tierUpdTotals 0 (runStream falseStop [exTierSoldOut]).acts = [0] := by
  obtain ⟨h1, h2, h3, h4⟩ :=
    c7_soldout_zero_cost falseStop [exTierSoldOut] 0 exTierSoldOut (by decide) (by decide)
  exact ⟨h1, h4 (by decide)⟩

/-- C7 counterexample: a session whose stop event is already set when it
starts emits zero updates for a discovered sold-out tier, not exactly
one. -/
theorem c7_cancelled_counterexample :
    exTierSoldOut.tier.id_ = none ∧
    tierUpdTotals 0 (runStream trueStop [exTierSoldOut]).acts = [] := by decide

/-- C8: for a tier with a quantity control, under identical page
behaviour (same cycle views), no cancellation and no cycle failure, the
final running total that `run_stream` yields for the tier (the total of
its last update) equals the count `_count_stock_for_tier` computes in
batch mode; both equal the sum of the per-cycle chosen quantities. -/
theorem c8_batch_stream_agreement (tiers : List TierSpec) (k : Nat) (tsk : TierSpec)
    (sid : String) (hget : tiers[k]? = some tsk) (hid : tsk.tier.id_ = some sid)
    (hnf : ∀ x ∈ tiers, noFail x.views = true) :
    (tierUpdTotals k (runStream falseStop tiers).acts).getLast? =
      some ((countStockForTier k tsk.views 0).total) ∧
    (countStockForTier k tsk.views 0).total = (cycleQtys tsk.views).sum := by
  have hmem : tsk ∈ tiers := List.getElem?_mem hget
  have hbatch := countStockForTier_total k tsk.views 0 (hnf tsk hmem)
  rw [Nat.zero_add] at hbatch
  obtain ⟨hs, -⟩ := streamTiers_master tiers 0 0 0 k tsk hget hnf
  obtain ⟨h1, -, -⟩ := hs sid hid
  rw [Nat.zero_add] at h1
  constructor
  · rw [runStream_tierUpds, h1, hbatch]
    exact List.getLast?_concat _
  · exact hbatch

/-- C8 witness: a concrete two-cycle tier — batch and streaming agree on
the final total. -/
theorem c8_agreement_witness :
    (tierUpdTotals 0 (runStream falseStop [exTierTwoCycles]).acts).getLast? =
      some ((countStockForTier 0 exTierTwoCycles.views 0).total) :=
  (c8_batch_stream_agreement [exTierTwoCycles] 0 exTierTwoCycles
    "tickets_ticket_list_4_qty" (by decide) (by decide) (by decide)).1

/-- C9: the `websocket_scrape` constructor call passes the keyword
`stop_event`, which `EntradiumScraper.__init__` does not accept (its
keyword parameters are `url`, `headless`, `timeout`), so construction
raises and — since the exception is raised before any send and not
converted into a message — the handler delivers no message at all: no
`event_info`, no `TierUpdate`, no terminal.  The `set_stop_event`
injection method is never called by the handler. -/
theorem c9_constructor_kwarg_mismatch :
    callAccepted initKeywordParams wsCallKeywords = false ∧
    initKeywordParams.contains "stop_event" = false ∧
    wsScraperMethodCalls.contains "set_stop_event" = false ∧
    ∀ (stop wstop : Nat → Bool) (tiers : List TierSpec),
      websocketScrape stop wstop tiers = [] := by
  refine ⟨by decide, by decide, by decide, ?_⟩
  intro stop wstop tiers
  have h : callAccepted initKeywordParams wsCallKeywords = false := by decide
  rw [websocketScrape, h]
  simp

/-- C10: for every tier with a quantity control in an uncancelled,
failure-free session, the tier's updates are the per-cycle running sums
followed by one additional trailing update: one more update than
successful reservations; with at least one reservation the final total
appears twice consecutively (trailing increment 0), and with none the
tier still emits exactly one update with total 0. -/
theorem c10_trailing_update (tiers : List TierSpec) (k : Nat) (tsk : TierSpec)
    (sid : String) (hget : tiers[k]? = some tsk) (hid : tsk.tier.id_ = some sid)
    (hnf : ∀ x ∈ tiers, noFail x.views = true) :
    tierUpdTotals k (runStream falseStop tiers).acts =
      sumsFrom 0 (cycleQtys tsk.views) ++ [(cycleQtys tsk.views).sum] ∧
    tierReserveQtys k (runStream falseStop tiers).acts = cycleQtys tsk.views ∧
    (tierUpdTotals k (runStream falseStop tiers).acts).length =
      (cycleQtys tsk.views).length + 1 ∧
    (cycleQtys tsk.views ≠ [] →
      ∃ l', tierUpdTotals k (runStream falseStop tiers).acts =
        l' ++ [(cycleQtys tsk.views).sum, (cycleQtys tsk.views).sum]) ∧
    (cycleQtys tsk.views = [] →
      tierUpdTotals k (runStream falseStop tiers).acts = [0]) := by
  obtain ⟨hs, -⟩ := streamTiers_master tiers 0 0 0 k tsk hget hnf
  obtain ⟨h1, h2, -⟩ := hs sid hid
  rw [Nat.zero_add] at h1 h2
  rw [runStream_tierUpds, runStream_tierReserves, h1, h2]
  refine ⟨rfl, rfl, ?_, ?_, ?_⟩
  · simp [sumsFrom_length]
  · intro hne
    obtain ⟨l', hl'⟩ := sumsFrom_concat hne 0
    rw [Nat.zero_add] at hl'
    rw [hl']
    exact ⟨l', by simp⟩
  · intro hnil
    rw [hnil]
    simp [sumsFrom]

/-- C10 witness: the tier of the counterexample to C4 viewed through the
confirmed statement — totals `[5, 5]`, one reservation plus the trailing
update. -/
theorem c10_trailing_witness :
    tierUpdTotals 0 (runStream falseStop [exTierOne]).acts = [5, 5] := by
  have h := (c10_trailing_update [exTierOne] 0 exTierOne
    "tickets_ticket_list_1_qty" (by decide) (by decide) (by decide)).1
  rw [h]
  decide

end Scrapium
